import Mathlib

/-!
Shallow embedding of the AI-Digest-Agent core (src/core/search.py, rank.py,
synth.py, validate.py, pipeline.py and src/ace/curator.py, playbook_store.py)
together with theorems settling the frozen claims about it.

Modelling conventions:
* Python floats (scores, similarities, coverage) are modelled as rationals ℚ.
* Python dicts that are used in insertion order are modelled as association
  lists kept in insertion order.
* Python string primitives (`split`, `splitlines`, `strip`, `lower`,
  `startswith`, …) are re-implemented structurally over character lists so
  that every definition evaluates by kernel reduction.
* Fallible code returns `Except`.
* External collaborators (LLM outputs, embedding / reranker models, the search
  provider) are parameters of the embedded functions.
-/

/-- `SourceType` from src/core/types.py. -/
inductive SourceType where
  | arxiv | github | huggingface | news | blogs | twitter | reddit | other
  deriving DecidableEq, Repr

/-- `SearchResult` from src/core/types.py (the fields the core logic reads;
`published_at` is kept as an optional ISO string). -/
structure SearchResult where
  url : String
  title : String
  snippet : String
  score : ℚ
  sourceType : SourceType
  publishedAt : Option String := none
  deriving DecidableEq, Repr

/-- `DocumentChunk` from src/core/types.py. -/
structure DocumentChunk where
  id : String
  url : String
  title : String
  text : String
  score : ℚ
  sourceType : SourceType
  publishedAt : Option String := none
  deriving DecidableEq, Repr

/-- `Citation` from src/core/types.py. -/
structure Citation where
  label : String
  url : String
  title : String
  sourceType : SourceType
  publishedAt : Option String := none
  deriving DecidableEq, Repr

instance : Inhabited Citation :=
  ⟨{ label := "", url := "", title := "", sourceType := SourceType.other }⟩

/-- `AnswerBullet` from src/core/types.py. -/
structure AnswerBullet where
  text : String
  citations : List String := []
  deriving DecidableEq, Repr

/-- `AnswerResponse` from src/core/types.py (the `metadata` dict, which holds
only raw transcripts and the validation report echo, is omitted). -/
structure AnswerResponse where
  question : String
  bullets : List AnswerBullet
  sources : List Citation
  runId : String
  deriving DecidableEq, Repr

/-- `ValidationIssueSeverity` from src/core/types.py. -/
inductive ValidationIssueSeverity where
  | warning | error
  deriving DecidableEq, Repr

/-- `ValidationIssue` from src/core/types.py. -/
structure ValidationIssue where
  message : String
  severity : ValidationIssueSeverity
  bulletIndex : Option Nat := none
  citationLabel : Option String := none
  deriving DecidableEq, Repr

/-- `ValidationReport` from src/core/types.py. -/
structure ValidationReport where
  passed : Bool
  coverage : ℚ
  issues : List ValidationIssue
  deriving DecidableEq, Repr

/-- Python's `repr` of a list of strings, as interpolated by the f-string in
`validate_answer` (`f"Bullet references unknown citations: {unknown}"`). -/
def py_list_repr (xs : List String) : String :=
  "[" ++ String.intercalate ", " (xs.map (fun s => "'" ++ s ++ "'")) ++ "]"

/-- The per-bullet body of the loop in `validate_answer`
(src/core/validate.py): returns the issues this bullet contributes and 1 if
the bullet counts as covered, 0 otherwise. -/
def bullet_check (labels : List String) (idx : Nat) (b : AnswerBullet) :
    List ValidationIssue × Nat :=
  if b.citations.isEmpty then
    ([{ message := "Bullet missing citation."
        severity := ValidationIssueSeverity.error
        bulletIndex := some idx }], 0)
  else
    let unknown := b.citations.filter (fun l => decide (l ∉ labels))
    if unknown.isEmpty then ([], 1)
    else
      ([{ message := "Bullet references unknown citations: " ++ py_list_repr unknown
          severity := ValidationIssueSeverity.error
          bulletIndex := some idx }], 0)

/-- `validate_answer` from src/core/validate.py. -/
def validate_answer (answer : AnswerResponse) : ValidationReport :=
  let labels := answer.sources.map Citation.label
  let res := answer.bullets.enum.foldl
    (fun (acc : List ValidationIssue × Nat) p =>
      let r := bullet_check labels p.1 p.2
      (acc.1 ++ r.1, acc.2 + r.2))
    ([], 0)
  let coverage : ℚ := (res.2 : ℚ) / (max answer.bullets.length 1 : ℚ)
  { passed := decide (coverage ≥ 19/20), coverage := coverage, issues := res.1 }

/-- The covered-bullet count accumulated by `validate_answer` never exceeds the
number of bullets processed. -/
theorem covered_le_length (labels : List String) (l : List (Nat × AnswerBullet))
    (init : List ValidationIssue × Nat) :
    (l.foldl (fun (acc : List ValidationIssue × Nat) p =>
      let r := bullet_check labels p.1 p.2
      (acc.1 ++ r.1, acc.2 + r.2)) init).2 ≤ init.2 + l.length := by
  induction l generalizing init with
  | nil => simp
  | cons hd tl ih =>
    refine le_trans (ih _) ?_
    have hb : (bullet_check labels hd.1 hd.2).2 ≤ 1 := by
      unfold bullet_check
      split
      · simp
      · dsimp only
        split <;> simp
    simp only [List.length_cons]
    omega

/-- C5: For every AnswerResponse (including one with zero bullets),
`validate_answer` returns a report (it is a total function), with
coverage = covered / max(total, 1) lying in [0, 1], and `passed` true iff
coverage ≥ 0.95. -/
theorem validate_answer_coverage_bounds (answer : AnswerResponse) :
    0 ≤ (validate_answer answer).coverage ∧
    (validate_answer answer).coverage ≤ 1 ∧
    ((validate_answer answer).passed = true ↔
      (19 : ℚ)/20 ≤ (validate_answer answer).coverage) := by
  unfold validate_answer
  set labels := answer.sources.map Citation.label with hlabels
  set res := answer.bullets.enum.foldl
    (fun (acc : List ValidationIssue × Nat) p =>
      let r := bullet_check labels p.1 p.2
      (acc.1 ++ r.1, acc.2 + r.2)) ([], 0) with hres
  have hcov : res.2 ≤ answer.bullets.length := by
    have := covered_le_length labels answer.bullets.enum ([], 0)
    simpa [List.enum_length] using this
  have hden : (0 : ℚ) < max (answer.bullets.length : ℚ) 1 :=
    lt_of_lt_of_le zero_lt_one (le_max_right _ _)
  refine ⟨?_, ?_, ?_⟩
  · show (0 : ℚ) ≤ (res.2 : ℚ) / max (answer.bullets.length : ℚ) 1
    exact div_nonneg (by positivity) (le_of_lt hden)
  · show (res.2 : ℚ) / max (answer.bullets.length : ℚ) 1 ≤ 1
    rw [div_le_one hden]
    have h1 : (res.2 : ℚ) ≤ (answer.bullets.length : ℚ) := by exact_mod_cast hcov
    exact le_trans h1 (le_max_left _ _)
  · show decide ((res.2 : ℚ) / max (answer.bullets.length : ℚ) 1 ≥ 19/20) = true ↔ _
    simp [ge_iff_le, decide_eq_true_iff]

/-! ## ACE curator and playbook store (src/ace/schemas.py, curator.py,
playbook_store.py)

The SQLite-backed `PlaybookStore` is modelled as a list of items in insertion
order; `upsert_item` replaces the row with the same primary key `id` in place,
or appends.  `Curator.merge` seeds its local view from `store.list_items()`;
`list_items` orders by the `helpful` counter, but `_is_duplicate` only asks
whether SOME existing item matches, which is order-independent, so the view is
modelled as the stored list itself. -/

/-- `PlaybookItemType` from src/ace/schemas.py. -/
inductive PlaybookItemType where
  | query_rewrite | source_rule | template_rule | validation_rule
  deriving DecidableEq, Repr

/-- `PlaybookItem` from src/ace/schemas.py (timestamps modelled as strings). -/
structure PlaybookItem where
  id : String
  type : PlaybookItemType
  content : String
  helpful : Int := 0
  harmful : Int := 0
  tags : List String := []
  createdAt : String := ""
  updatedAt : String := ""
  deriving DecidableEq, Repr

/-- `PlaybookDelta` from src/ace/schemas.py. -/
structure PlaybookDelta where
  item : PlaybookItem
  rationale : String
  runId : String
  deriving DecidableEq, Repr

/-- Helper for `py_words`: structural whitespace tokenizer (`cur` is the
token being read). -/
def split_ws : List Char → List Char → List String
  | [], cur => if cur.isEmpty then [] else [String.mk cur]
  | c :: cs, cur =>
    if c.isWhitespace then
      if cur.isEmpty then split_ws cs [] else String.mk cur :: split_ws cs []
    else split_ws cs (cur ++ [c])

/-- Python `str.split()`: split on whitespace runs, dropping empty tokens. -/
def py_words (s : String) : List String := split_ws s.data []

/-- Python `str.lower()`, per character. -/
def py_lower (s : String) : String := String.mk (s.data.map Char.toLower)

/-- `Curator._content_similarity` from src/ace/curator.py: case-insensitive
word-set Jaccard similarity. -/
def content_similarity (a b : String) : ℚ :=
  let set_a := ((py_words a).map py_lower).dedup
  let set_b := ((py_words b).map py_lower).dedup
  if set_a.isEmpty || set_b.isEmpty then 0
  else
    let intersection := set_a.filter (fun t => decide (t ∈ set_b))
    let union := (set_a ++ set_b).dedup
    (intersection.length : ℚ) / (union.length : ℚ)

/-- `Curator._is_duplicate` from src/ace/curator.py (Python float literal 0.8
modelled as the rational 4/5; both concrete similarities compared against it
in the claims, 3/8 and 5/6, compare the same way against either value). -/
def is_duplicate (candidate : PlaybookItem) (existing : List PlaybookItem) : Bool :=
  existing.any (fun item =>
    decide (item.id = candidate.id) ||
      (decide (item.type = candidate.type) &&
        decide ((4 : ℚ)/5 < content_similarity item.content candidate.content)))

/-- `PlaybookStore.upsert_item` from src/ace/playbook_store.py:
`INSERT ... ON CONFLICT(id) DO UPDATE` on primary key `id`. -/
def upsert_item (store : List PlaybookItem) (item : PlaybookItem) : List PlaybookItem :=
  if store.any (fun it => decide (it.id = item.id)) then
    store.map (fun it => if it.id = item.id then item else it)
  else store ++ [item]

/-- The loop of `Curator.merge` from src/ace/curator.py: threads the store,
the merge-local `existing` view and the accepted (`merged`) list through the
deltas; returns (final store, accepted items in input order). -/
def merge_loop : List PlaybookItem → List PlaybookItem → List PlaybookDelta →
    List PlaybookItem → List PlaybookItem × List PlaybookItem
  | store, _, [], merged => (store, merged)
  | store, existing, d :: ds, merged =>
    if is_duplicate d.item existing then merge_loop store existing ds merged
    else merge_loop (upsert_item store d.item) (existing ++ [d.item]) ds (merged ++ [d.item])

/-- `Curator.merge` from src/ace/curator.py: returns (new store contents,
accepted items).  An empty delta list returns the store unchanged with no
accepted items, exactly as the early `return []` does. -/
def curator_merge (store : List PlaybookItem) (deltas : List PlaybookDelta) :
    List PlaybookItem × List PlaybookItem :=
  merge_loop store store deltas []

/-- The existing playbook item of claim C7. -/
def c7_existing : PlaybookItem :=
  { id := "existing-item", type := PlaybookItemType.query_rewrite,
    content := "Use sort:recent for huggingface models" }

/-- The new delta of claim C7. -/
def c7_delta : PlaybookDelta :=
  { item := { id := "new-item", type := PlaybookItemType.query_rewrite,
              content := "use sort: recent for huggingface model" },
    rationale := "", runId := "" }

/-- The C7 similarity computes, definitionally, to the cast of 3 over the
cast of 8: the lower-cased token sets are
{use, sort:recent, for, huggingface, models} and
{use, sort:, recent, for, huggingface, model}, with intersection of size 3
and union of size 8. -/
theorem c7_similarity_eval :
    content_similarity c7_existing.content c7_delta.item.content =
      ((3 : ℕ) : ℚ) / ((8 : ℕ) : ℚ) := rfl

/-- The C7 similarity as a rational: 3/8 = 0.375, not ≈0.83. -/
theorem c7_similarity_val :
    content_similarity c7_existing.content c7_delta.item.content = 3/8 := by
  rw [c7_similarity_eval]; norm_num

/-- The C7 threshold comparison comes out false. -/
theorem c7_not_over_threshold :
    decide ((4 : ℚ)/5 < content_similarity c7_existing.content c7_delta.item.content)
      = false := by
  refine decide_eq_false ?_
  rw [c7_similarity_eval]; norm_num

/-- The C7 delta is not flagged as a duplicate of the stored item. -/
theorem c7_not_duplicate : is_duplicate c7_delta.item [c7_existing] = false := by
  have hid : decide (c7_existing.id = c7_delta.item.id) = false := by decide
  simp [is_duplicate, hid, c7_not_over_threshold]

/-- C7 counterexample: with "Use sort:recent for huggingface models" stored,
the new query-rewrite delta "use sort: recent for huggingface model" is NOT
rejected: the case-insensitive word-set Jaccard similarity of the two
contents is 3/8 = 0.375 (the token sets differ at "sort:recent" vs
"sort:"/"recent" and at "models" vs "model"), which does not exceed the 0.8
threshold, so the delta IS present in the merge's accepted items. -/
theorem curator_near_duplicate_counterexample :
    content_similarity c7_existing.content c7_delta.item.content = 3/8 ∧
    ¬ ((4 : ℚ)/5 < content_similarity c7_existing.content c7_delta.item.content) ∧
    is_duplicate c7_delta.item [c7_existing] = false ∧
    (curator_merge [c7_existing] [c7_delta]).2 = [c7_delta.item] := by
  refine ⟨c7_similarity_val, ?_, c7_not_duplicate, ?_⟩
  · rw [c7_similarity_eval]; norm_num
  · have hid : decide (c7_existing.id = c7_delta.item.id) = false := by decide
    simp [curator_merge, merge_loop, c7_not_duplicate, upsert_item, hid]

/-- C7 amended: the Curator ACCEPTS the new delta ("use sort: recent for
huggingface model", query-rewrite type) next to the stored item "Use
sort:recent for huggingface models" of the same type, because the
case-insensitive word-set similarity of the two contents is 3/8 = 0.375,
which does not exceed the 0.8 threshold; the delta's item is returned among
the merge's accepted items and is appended to the store. -/
theorem curator_accepts_c7_delta :
    content_similarity c7_existing.content c7_delta.item.content = 3/8 ∧
    curator_merge [c7_existing] [c7_delta] =
      ([c7_existing, c7_delta.item], [c7_delta.item]) := by
  refine ⟨c7_similarity_val, ?_⟩
  have hid : decide (c7_existing.id = c7_delta.item.id) = false := by decide
  simp [curator_merge, merge_loop, c7_not_duplicate, upsert_item, hid]

/-- If a candidate is not flagged duplicate against `existing`, no existing
item shares its id. -/
theorem no_id_clash_of_not_duplicate (cand : PlaybookItem) (existing : List PlaybookItem)
    (h : is_duplicate cand existing = false) :
    ∀ it ∈ existing, it.id ≠ cand.id := by
  intro it hit heq
  have : existing.any (fun item =>
      decide (item.id = cand.id) ||
        (decide (item.type = cand.type) &&
          decide ((4 : ℚ)/5 < content_similarity item.content cand.content))) = true := by
    refine List.any_eq_true.mpr ⟨it, hit, ?_⟩
    simp [heq]
  rw [is_duplicate] at h
  rw [h] at this
  exact Bool.false_ne_true this

/-- An item with the same id as the candidate makes `is_duplicate` true. -/
theorem duplicate_of_id_member (cand : PlaybookItem) (existing : List PlaybookItem)
    (it : PlaybookItem) (hit : it ∈ existing) (heq : it.id = cand.id) :
    is_duplicate cand existing = true := by
  rw [is_duplicate]
  refine List.any_eq_true.mpr ⟨it, hit, ?_⟩
  simp [heq]

/-- C8: (a) merging a delta whose item is not yet a duplicate appends it;
(b) the resulting store holds exactly one item with that id; (c) a second
`merge` call with the identical delta is rejected, leaving the store
unchanged (idempotence across calls); (d) within a single merge batch, an
item accepted for an earlier delta is visible to the duplicate check of a
later delta: a second delta carrying the same id in the same batch is
rejected, so only the first is accepted. -/
theorem curator_merge_idempotent (store : List PlaybookItem) (d d1 d2 : PlaybookDelta)
    (h : is_duplicate d.item store = false)
    (h1 : is_duplicate d1.item store = false)
    (hid : d2.item.id = d1.item.id) :
    curator_merge store [d] = (store ++ [d.item], [d.item]) ∧
    ((store ++ [d.item]).filter (fun it => decide (it.id = d.item.id))).length = 1 ∧
    curator_merge (store ++ [d.item]) [d] = (store ++ [d.item], []) ∧
    (curator_merge store [d1, d2]).2 = [d1.item] := by
  have hnoid := no_id_clash_of_not_duplicate d.item store h
  have hup : upsert_item store d.item = store ++ [d.item] := by
    rw [upsert_item, if_neg]
    intro hany
    obtain ⟨it, hit, hbit⟩ := List.any_eq_true.mp hany
    exact hnoid it hit (of_decide_eq_true hbit)
  refine ⟨?_, ?_, ?_, ?_⟩
  · simp [curator_merge, merge_loop, h, hup]
  · have hfil : store.filter (fun it => decide (it.id = d.item.id)) = [] := by
      rw [List.filter_eq_nil_iff]
      intro a ha
      simp only [decide_eq_true_eq]
      exact hnoid a ha
    rw [List.filter_append, hfil]
    simp
  · have hdup2 : is_duplicate d.item (store ++ [d.item]) = true :=
      duplicate_of_id_member _ _ d.item (by simp) rfl
    simp [curator_merge, merge_loop, hdup2]
  · have hdup3 : is_duplicate d2.item (store ++ [d1.item]) = true :=
      duplicate_of_id_member _ _ d1.item (by simp) hid.symm
    simp [curator_merge, merge_loop, h1, hdup3]

/-- Concrete playbook delta used by the C8 witness. -/
def c8_d : PlaybookDelta :=
  { item := { id := "item-a", type := PlaybookItemType.source_rule, content := "prefer arxiv" },
    rationale := "", runId := "r1" }

/-- Second concrete delta (same id as `c8_d`) used by the C8 witness. -/
def c8_d2 : PlaybookDelta :=
  { item := { id := "item-a", type := PlaybookItemType.source_rule, content := "something else" },
    rationale := "", runId := "r2" }

/-- C8 witness: the idempotence / in-batch-visibility theorem instantiated at
an empty store and concrete deltas sharing one id. -/
theorem curator_merge_idempotent_witness :
    curator_merge [] [c8_d] = ([c8_d.item], [c8_d.item]) ∧
    ((([] : List PlaybookItem) ++ [c8_d.item]).filter
      (fun it => decide (it.id = c8_d.item.id))).length = 1 ∧
    curator_merge (([] : List PlaybookItem) ++ [c8_d.item]) [c8_d]
      = (([] : List PlaybookItem) ++ [c8_d.item], []) ∧
    (curator_merge [] [c8_d, c8_d2]).2 = [c8_d.item] := by
  have h := curator_merge_idempotent [] c8_d c8_d c8_d2 rfl rfl rfl
  simpa using h

/-! ## Answer synthesizer (src/core/synth.py) and orchestrator
(src/core/pipeline.py)

The two LLM calls (`_initial_summary`, `_chain_of_density`) are external
collaborators: their final output — the refined text that `_parse_bullets`
receives — is a parameter of the embedded `synthesize`.  Prompt assembly and
`_build_context` only feed those calls, so they have no bearing on the
structure of the produced answer. -/

/-- Python `str.strip()`: drop whitespace from both ends. -/
def py_strip (s : String) : String :=
  String.mk (((s.data.dropWhile Char.isWhitespace).reverse.dropWhile
    Char.isWhitespace).reverse)

/-- Character-list prefix test (Python `str.startswith`). -/
def chars_start : List Char → List Char → Bool
  | [], _ => true
  | _ :: _, [] => false
  | p :: ps, c :: cs => p = c && chars_start ps cs

/-- Python `s.startswith(p)`. -/
def py_startswith (s p : String) : Bool := chars_start p.data s.data

/-- Helper for `py_splitlines`: split on the newline character. -/
def split_on_nl : List Char → List Char → List String
  | [], cur => [String.mk cur]
  | c :: cs, cur =>
    if c = '\n' then String.mk cur :: split_on_nl cs [] else split_on_nl cs (cur ++ [c])

/-- Python `str.splitlines()` over newline-separated text: no trailing empty
line for text ending in a newline, and no line at all for empty text. -/
def py_splitlines (s : String) : List String :=
  if s.data.isEmpty then []
  else
    let segs := split_on_nl s.data []
    if segs.getLast? = some "" then segs.dropLast else segs

/-- The termination test of the parse loop in `Synthesizer._parse_bullets`:
`stripped.lower().startswith("sources:") or stripped.lower() == "sources"`. -/
def is_sources_line (stripped : String) : Bool :=
  py_startswith (py_lower stripped) "sources:" || py_lower stripped = "sources"

/-- `stripped.startswith(("-", "*", "•"))`. -/
def starts_glyph_bullet (s : String) : Bool :=
  py_startswith s "-" || py_startswith s "*" || py_startswith s "•"

/-- The regex `^\d+[\).\s]` of `_parse_bullets`: one or more digits followed
by ')' or '.' or a whitespace character. -/
def starts_num_bullet (s : String) : Bool :=
  let ds := s.data.takeWhile Char.isDigit
  match ds, s.data.drop ds.length with
  | [], _ => false
  | _ :: _, c :: _ => c = ')' || c = '.' || c.isWhitespace
  | _ :: _, [] => false

/-- `stripped.lstrip("-*• ")`: drop leading characters from that set. -/
def lstrip_markers (s : String) : String :=
  String.mk (s.data.dropWhile (fun c => c = '-' || c = '*' || c = '•' || c = ' '))

/-- `re.sub(r"^\d+[\).\s]+", "", cleaned)`: remove a leading run of digits
followed by at least one of ')' '.' or whitespace (anchored, so applied at
most once; the two character classes are disjoint from digits, so maximal
munch coincides with the regex match). -/
def strip_ordinal (s : String) : String :=
  let ds := s.data.takeWhile Char.isDigit
  if ds.isEmpty then s
  else
    let rest := s.data.drop ds.length
    let ws := rest.takeWhile (fun c => c = ')' || c = '.' || c.isWhitespace)
    if ws.isEmpty then s else String.mk (rest.drop ws.length)

/-- `bullet_lines[-1] = bullet_lines[-1] + " " + stripped` (the list is
non-empty whenever the code runs this assignment). -/
def append_to_last : List String → String → List String
  | [], _ => []
  | [x], s => [x ++ " " ++ s]
  | x :: xs, s => x :: append_to_last xs s

/-- The line loop of `Synthesizer._parse_bullets`, threading the
`bullet_lines` accumulator; returns the accumulated bullet lines. -/
def parse_bullet_lines : List String → List String → List String
  | [], acc => acc
  | line :: rest, acc =>
    let stripped := py_strip line
    if stripped = "" then parse_bullet_lines rest acc
    else if is_sources_line stripped then acc
    else if starts_glyph_bullet stripped || starts_num_bullet stripped then
      parse_bullet_lines rest (acc ++ [py_strip (strip_ordinal (py_strip (lstrip_markers stripped)))])
    else if acc.isEmpty then
      if stripped.data.length > 20 && !(stripped.data.getLast? = some ':') then
        parse_bullet_lines rest (acc ++ [stripped])
      else parse_bullet_lines rest acc
    else parse_bullet_lines rest (append_to_last acc stripped)

/-- `re.findall(r"\[(\d+)\]", line)` scan, fuelled so that it reduces; the
scan advances at least one character per step, so fuel `length + 1`
(supplied by `find_citations`) never runs out. -/
def find_citations_aux : Nat → List Char → List String
  | 0, _ => []
  | _ + 1, [] => []
  | fuel + 1, '[' :: rest =>
    let ds := rest.takeWhile Char.isDigit
    match ds, rest.drop ds.length with
    | _ :: _, ']' :: _ => String.mk ds :: find_citations_aux fuel (rest.drop (ds.length + 1))
    | _, _ => find_citations_aux fuel rest
  | fuel + 1, _ :: rest => find_citations_aux fuel rest

/-- All `[n]` citation tags of a line, in order. -/
def find_citations (cs : List Char) : List String :=
  find_citations_aux (cs.length + 1) cs

/-- `Synthesizer._parse_bullets` from src/core/synth.py. -/
def parse_bullets (text : String) : List AnswerBullet :=
  (parse_bullet_lines (py_splitlines text) []).map
    (fun l => { text := l, citations := find_citations l.data })

/-- The loop body of `Synthesizer._build_citations`: skip an already-seen
URL, otherwise append a citation labelled `str(len(citations) + 1)`. -/
def build_citations_step (acc : List (String × Citation)) (chunk : DocumentChunk) :
    List (String × Citation) :=
  if acc.any (fun p => decide (p.1 = chunk.url)) then acc
  else
    acc ++ [(chunk.url,
      { label := toString (acc.length + 1)
        url := chunk.url
        title := chunk.title
        sourceType := chunk.sourceType
        publishedAt := chunk.publishedAt })]

/-- `Synthesizer._build_citations` from src/core/synth.py: one citation per
distinct chunk URL in first-seen order, labelled "1", "2", … densely.
Modelled as the insertion-ordered association list url ↦ citation. -/
def build_citations (chunks : List DocumentChunk) : List (String × Citation) :=
  chunks.foldl build_citations_step []

/-- `citations[chunk.url]` (every URL the synthesizer looks up is a key). -/
def citation_for (cits : List (String × Citation)) (url : String) : Citation :=
  (((cits.find? (fun p => decide (p.1 = url))).map Prod.snd).getD default)

/-- `chunk.text.strip().split(". ")[0]`: the characters before the first
occurrence of ". ". -/
def before_sentence_break : List Char → List Char
  | [] => []
  | '.' :: ' ' :: _ => []
  | c :: cs => c :: before_sentence_break cs

/-- The snippet sentence of `Synthesizer._fallback_bullets`: first sentence
of the stripped text, capped at 220 characters, falling back to the first
220 characters of the stripped text when empty. -/
def snippet_sentence (text : String) : String :=
  let s := py_strip (String.mk (before_sentence_break (py_strip text).data))
  let s := String.mk (s.data.take 220)
  if s = "" then String.mk ((py_strip text).data.take 220) else s

/-- The chunk loop of `Synthesizer._fallback_bullets`, threading the set of
seen URLs and the bullet accumulator. -/
def fallback_loop (limit : Nat) (cits : List (String × Citation)) :
    List DocumentChunk → List String → List AnswerBullet → List AnswerBullet
  | [], _, acc => acc
  | c :: rest, seen, acc =>
    if seen.contains c.url then fallback_loop limit cits rest seen acc
    else
      let cit := citation_for cits c.url
      let btext := c.title ++ ": " ++ snippet_sentence c.text ++ " [" ++ cit.label ++ "]"
      let acc2 := acc ++ [{ text := btext, citations := [cit.label] }]
      if limit ≤ acc2.length then acc2
      else fallback_loop limit cits rest (seen ++ [c.url]) acc2

/-- `Synthesizer._fallback_bullets` from src/core/synth.py
(`limit = max(min_bullets, min(max_bullets, len(citations)))`). -/
def fallback_bullets (minBullets maxBullets : Nat) (chunks : List DocumentChunk)
    (cits : List (String × Citation)) : List AnswerBullet :=
  fallback_loop (max minBullets (min maxBullets cits.length)) cits chunks [] []

/-- The message of the `ValueError` `Synthesizer.synthesize` raises on empty
input (the evidence-exhausted condition). -/
def evidence_exhausted_msg : String := "No supporting chunks available for synthesis."

/-- `Synthesizer.synthesize` from src/core/synth.py.  `refined` is the final
output of the two-pass generation protocol (an arbitrary collaborator
string); `minBullets`/`maxBullets` come from `SynthesizerConfig` (defaults
3 and 7). -/
def synthesize (minBullets maxBullets : Nat) (question runId : String)
    (chunks : List DocumentChunk) (refined : String) :
    Except String AnswerResponse :=
  if chunks.isEmpty then Except.error evidence_exhausted_msg
  else
    let cits := build_citations chunks
    let parsed := parse_bullets refined
    let bullets := if parsed.isEmpty then fallback_bullets minBullets maxBullets chunks cits
                   else parsed
    Except.ok
      { question := question
        bullets := bullets
        sources := cits.map Prod.snd
        runId := runId }

/-- The tail of `Pipeline.run` from src/core/pipeline.py, from the point the
ranked chunks exist: a single `synthesize` call (no retry) followed by
validation; the `ValueError` propagates — a failed run carries no partial
answer. -/
def pipeline_run (minBullets maxBullets : Nat) (question runId : String)
    (rankedChunks : List DocumentChunk) (refined : String) :
    Except String (AnswerResponse × ValidationReport) :=
  match synthesize minBullets maxBullets question runId rankedChunks refined with
  | Except.error e => Except.error e
  | Except.ok answer => Except.ok (answer, validate_answer answer)

/-- C9 counterexample: the line "sources of error" — non-empty, lower-case
form starting with "sources" — does NOT terminate bullet parsing: the code
only breaks on a line starting with "sources:" or equal (case-insensitively)
to "sources".  The line is instead absorbed into the previous bullet, and
the later line "- b [2]" still contributes a bullet. -/
theorem parse_sources_prefix_counterexample :
    py_startswith (py_lower (py_strip "sources of error")) "sources" = true ∧
    is_sources_line (py_strip "sources of error") = false ∧
    parse_bullets "- a [1]\nsources of error\n- b [2]" =
      [{ text := "a [1] sources of error", citations := ["1"] },
       { text := "b [2]", citations := ["2"] }] := by
  refine ⟨by decide, by decide, by decide⟩

/-- C9 amended: bullet parsing terminates at any non-empty line whose
stripped, lower-cased form starts with "sources:" or equals "sources"
(`is_sources_line`): every line after such a line contributes nothing, for
any accumulator state. -/
theorem parse_terminates_at_sources_line (pre post : List String) (line : String)
    (acc : List String) (h : is_sources_line (py_strip line) = true) :
    parse_bullet_lines (pre ++ line :: post) acc
      = parse_bullet_lines (pre ++ [line]) acc := by
  induction pre generalizing acc with
  | nil =>
    have hne : ¬ (py_strip line = "") := by
      intro he
      rw [he] at h
      exact absurd h (by decide)
    simp only [List.nil_append, parse_bullet_lines, hne, h, if_false, if_true]
  | cons p pre ih =>
    simp only [List.cons_append, parse_bullet_lines]
    split_ifs <;> first | rfl | exact ih _

/-- C9 amended witness: at a concrete transcript, everything after the
"Sources:" line is discarded. -/
theorem parse_terminates_at_sources_line_witness :
    is_sources_line (py_strip "Sources:") = true ∧
    parse_bullet_lines (["- a [1]"] ++ "Sources:" :: ["- b [2]"]) []
      = parse_bullet_lines (["- a [1]"] ++ ["Sources:"]) [] :=
  ⟨by decide, parse_terminates_at_sources_line ["- a [1]"] ["- b [2]"] "Sources:" [] (by decide)⟩

/-- C6: `synthesize` fails — and fails with the evidence-exhausted message —
exactly when the chunk list is empty, whatever the collaborator produced;
and the orchestrator (`pipeline_run`, the post-ranking tail of
`Pipeline.run`, which calls `synthesize` once and never retries) surfaces
exactly that condition as a failed run carrying no answer. -/
theorem synthesize_evidence_exhausted_iff (minB maxB : Nat) (q rid refined : String)
    (chunks : List DocumentChunk) :
    (synthesize minB maxB q rid chunks refined = Except.error evidence_exhausted_msg
      ↔ chunks = []) ∧
    ((∃ e, synthesize minB maxB q rid chunks refined = Except.error e) ↔ chunks = []) ∧
    (pipeline_run minB maxB q rid chunks refined = Except.error evidence_exhausted_msg
      ↔ chunks = []) ∧
    ((∃ e, pipeline_run minB maxB q rid chunks refined = Except.error e) ↔ chunks = []) := by
  cases chunks with
  | nil =>
    refine ⟨by simp [synthesize], ?_, by simp [pipeline_run, synthesize], ?_⟩
    · simp only [iff_true]
      exact ⟨evidence_exhausted_msg, by simp [synthesize]⟩
    · simp only [iff_true]
      exact ⟨evidence_exhausted_msg, by simp [pipeline_run, synthesize]⟩
  | cons c rest =>
    have hok : synthesize minB maxB q rid (c :: rest) refined
        = Except.ok
          { question := q
            bullets := if (parse_bullets refined).isEmpty then
                fallback_bullets minB maxB (c :: rest) (build_citations (c :: rest))
              else parse_bullets refined
            sources := (build_citations (c :: rest)).map Prod.snd
            runId := rid } := by
      simp [synthesize]
    refine ⟨?_, ?_, ?_, ?_⟩
    · rw [hok]; simp
    · rw [hok]; simp
    · rw [pipeline_run, hok]; simp
    · rw [pipeline_run, hok]; simp

/-- Concrete chunk used by the C4 counterexample and witness. -/
def c4_chunk : DocumentChunk :=
  { id := "chunk-1", url := "https://a.example", title := "T",
    text := "hello world", score := 0, sourceType := SourceType.news }

/-- The answer the synthesizer produces for `c4_chunk` and the refined LLM
output "- x [2]". -/
def c4_answer : AnswerResponse :=
  { question := "q"
    bullets := [{ text := "x [2]", citations := ["2"] }]
    sources := [{ label := "1", url := "https://a.example", title := "T",
                  sourceType := SourceType.news }]
    runId := "r" }

/-- C4 counterexample: on the NORMAL parse path, with the generation
collaborator's output arbitrary, a bullet citation need not match any source
label: the refined text "- x [2]" over a single chunk yields a bullet citing
"2" while the sources carry only label "1", and validating the answer yields
one unknown-citation issue. -/
theorem synthesizer_citation_counterexample :
    synthesize 3 7 "q" "r" [c4_chunk] "- x [2]" = Except.ok c4_answer ∧
    c4_answer.bullets = [{ text := "x [2]", citations := ["2"] }] ∧
    c4_answer.sources.map Citation.label = ["1"] ∧
    (c4_answer.sources.map Citation.label).contains "2" = false ∧
    (validate_answer c4_answer).issues =
      [{ message := "Bullet references unknown citations: ['2']"
         severity := ValidationIssueSeverity.error
         bulletIndex := some 0 }] := by
  refine ⟨rfl, by decide, by decide, by decide, by decide⟩

/-- Dense labels: the citation labels accumulated by `_build_citations` are
always "1", "2", … in positional order. -/
theorem build_citations_labels_aux (chunks : List DocumentChunk)
    (acc : List (String × Citation))
    (h : acc.map (fun p => p.2.label)
        = (List.range acc.length).map (fun i => toString (i + 1))) :
    (chunks.foldl build_citations_step acc).map (fun p => p.2.label)
      = (List.range (chunks.foldl build_citations_step acc).length).map
          (fun i => toString (i + 1)) := by
  induction chunks generalizing acc with
  | nil => simpa using h
  | cons c rest ih =>
    simp only [List.foldl_cons]
    refine ih _ ?_
    rw [build_citations_step]
    split
    · exact h
    · rw [List.map_append, List.length_append, h]
      simp [List.range_succ]

/-- The labels of `build_citations` are the dense strings "1", …, "n". -/
theorem build_citations_labels (chunks : List DocumentChunk) :
    (build_citations chunks).map (fun p => p.2.label)
      = (List.range (build_citations chunks).length).map (fun i => toString (i + 1)) :=
  build_citations_labels_aux chunks [] (by simp)

/-- Keys of the citation map only accumulate. -/
theorem build_citations_keys_mono (chunks : List DocumentChunk)
    (acc : List (String × Citation)) (u : String)
    (h : acc.any (fun p => decide (p.1 = u)) = true) :
    (chunks.foldl build_citations_step acc).any (fun p => decide (p.1 = u)) = true := by
  induction chunks generalizing acc with
  | nil => simpa using h
  | cons c rest ih =>
    simp only [List.foldl_cons]
    refine ih _ ?_
    rw [build_citations_step]
    split
    · exact h
    · rw [List.any_append, h, Bool.true_or]

/-- Every chunk URL is a key of the citation map. -/
theorem build_citations_url_present (chunks : List DocumentChunk)
    (acc : List (String × Citation)) (c : DocumentChunk) (hc : c ∈ chunks) :
    (chunks.foldl build_citations_step acc).any (fun p => decide (p.1 = c.url)) = true := by
  induction chunks generalizing acc with
  | nil => cases hc
  | cons d rest ih =>
    rcases List.mem_cons.mp hc with hcd | hmem
    · subst hcd
      simp only [List.foldl_cons]
      refine build_citations_keys_mono rest _ c.url ?_
      rw [build_citations_step]
      split
      · assumption
      · simp
    · simp only [List.foldl_cons]
      exact ih _ hmem

/-- When a URL is a key of the citation map, the looked-up citation's label
is one of the map's labels. -/
theorem citation_for_label_mem (cits : List (String × Citation)) (u : String)
    (h : cits.any (fun p => decide (p.1 = u)) = true) :
    (citation_for cits u).label ∈ cits.map (fun p => p.2.label) := by
  obtain ⟨p, hp, hpu⟩ := List.any_eq_true.mp h
  have hsome : (cits.find? (fun p => decide (p.1 = u))).isSome := by
    rw [List.find?_isSome]
    exact ⟨p, hp, hpu⟩
  obtain ⟨q, hq⟩ := Option.isSome_iff_exists.mp hsome
  have hqmem : q ∈ cits := List.mem_of_find?_eq_some hq
  rw [citation_for, hq]
  exact List.mem_map_of_mem (fun p => p.2.label) hqmem

/-- Every bullet the fallback loop emits carries exactly one citation label,
and that label is one of the citation map's labels. -/
theorem fallback_loop_citations (limit : Nat) (cits : List (String × Citation))
    (chunks : List DocumentChunk) :
    ∀ (seen : List String) (acc : List AnswerBullet),
      (∀ b ∈ acc, ∃ lab, b.citations = [lab] ∧ lab ∈ cits.map (fun p => p.2.label)) →
      (∀ c ∈ chunks, cits.any (fun p => decide (p.1 = c.url)) = true) →
      ∀ b ∈ fallback_loop limit cits chunks seen acc,
        ∃ lab, b.citations = [lab] ∧ lab ∈ cits.map (fun p => p.2.label) := by
  induction chunks with
  | nil =>
    intro seen acc hacc _ b hb
    rw [fallback_loop] at hb
    exact hacc b hb
  | cons c rest ih =>
    intro seen acc hacc hchunks b hb
    have hrest : ∀ d ∈ rest, cits.any (fun p => decide (p.1 = d.url)) = true :=
      fun d hd => hchunks d (List.mem_cons_of_mem c hd)
    have hc : cits.any (fun p => decide (p.1 = c.url)) = true :=
      hchunks c (List.mem_cons_self c rest)
    have hacc2 : ∀ b ∈ acc ++
        [{ text := c.title ++ ": " ++ snippet_sentence c.text ++ " ["
              ++ (citation_for cits c.url).label ++ "]"
           citations := [(citation_for cits c.url).label] : AnswerBullet }],
        ∃ lab, b.citations = [lab] ∧ lab ∈ cits.map (fun p => p.2.label) := by
      intro b hb
      rcases List.mem_append.mp hb with hb | hb
      · exact hacc b hb
      · rcases List.mem_singleton.mp hb with rfl
        exact ⟨(citation_for cits c.url).label, rfl, citation_for_label_mem cits c.url hc⟩
    rw [fallback_loop] at hb
    by_cases hseen : seen.contains c.url
    · rw [if_pos hseen] at hb
      exact ih seen acc hacc hrest b hb
    · rw [if_neg hseen] at hb
      dsimp only at hb
      split at hb
      · exact hacc2 b hb
      · exact ih _ _ hacc2 hrest b hb

/-- The fallback loop never shrinks its accumulator. -/
theorem fallback_loop_length_mono (limit : Nat) (cits : List (String × Citation))
    (chunks : List DocumentChunk) :
    ∀ (seen : List String) (acc : List AnswerBullet),
      acc.length ≤ (fallback_loop limit cits chunks seen acc).length := by
  induction chunks with
  | nil => intro seen acc; rw [fallback_loop]
  | cons c rest ih =>
    intro seen acc
    rw [fallback_loop]
    by_cases hseen : seen.contains c.url
    · rw [if_pos hseen]; exact ih seen acc
    · rw [if_neg hseen]
      dsimp only
      split
      · simp
      · refine le_trans ?_ (ih _ _)
        simp

/-- A bullet with exactly one, known, citation label contributes no issue and
counts as covered. -/
theorem bullet_check_covered (labels : List String) (idx : Nat) (b : AnswerBullet)
    (lab : String) (hb : b.citations = [lab]) (hlab : lab ∈ labels) :
    bullet_check labels idx b = ([], 1) := by
  simp [bullet_check, hb, hlab]

/-- When every enumerated bullet checks out covered, the validation fold adds
no issues and counts every bullet. -/
theorem covered_fold_exact (labels : List String) (l : List (Nat × AnswerBullet))
    (init : List ValidationIssue × Nat)
    (h : ∀ p ∈ l, bullet_check labels p.1 p.2 = ([], 1)) :
    l.foldl (fun (acc : List ValidationIssue × Nat) p =>
      let r := bullet_check labels p.1 p.2
      (acc.1 ++ r.1, acc.2 + r.2)) init = (init.1, init.2 + l.length) := by
  induction l generalizing init with
  | nil => simp
  | cons hd tl ih =>
    rw [List.foldl_cons]
    have hhd := h hd (List.mem_cons_self hd tl)
    rw [ih _ (fun p hp => h p (List.mem_cons_of_mem hd hp))]
    rw [hhd]
    simp only [List.append_nil, List.length_cons]
    refine Prod.ext rfl ?_
    simp
    omega

/-- If every bullet of an answer carries exactly one known citation label,
validation produces no issues and full fractional coverage. -/
theorem validate_all_covered (ans : AnswerResponse)
    (h : ∀ b ∈ ans.bullets,
      ∃ lab, b.citations = [lab] ∧ lab ∈ ans.sources.map Citation.label) :
    (validate_answer ans).issues = [] ∧
    (validate_answer ans).coverage
      = (ans.bullets.length : ℚ) / max (ans.bullets.length : ℚ) 1 := by
  have hall : ∀ p ∈ ans.bullets.enum,
      bullet_check (ans.sources.map Citation.label) p.1 p.2 = ([], 1) := by
    intro p hp
    have hmem : p.2 ∈ ans.bullets := by
      have := List.mem_map_of_mem Prod.snd hp
      rwa [List.enum_map_snd] at this
    obtain ⟨lab, hcit, hlab⟩ := h p.2 hmem
    exact bullet_check_covered _ _ _ lab hcit hlab
  have hfold := covered_fold_exact (ans.sources.map Citation.label)
    ans.bullets.enum ([], 0) hall
  constructor
  · show (ans.bullets.enum.foldl
      (fun (acc : List ValidationIssue × Nat) p =>
        let r := bullet_check (ans.sources.map Citation.label) p.1 p.2
        (acc.1 ++ r.1, acc.2 + r.2)) ([], 0)).1 = []
    rw [hfold]
  · show ((ans.bullets.enum.foldl
      (fun (acc : List ValidationIssue × Nat) p =>
        let r := bullet_check (ans.sources.map Citation.label) p.1 p.2
        (acc.1 ++ r.1, acc.2 + r.2)) ([], 0)).2 : ℚ)
        / max (ans.bullets.length : ℚ) 1
      = (ans.bullets.length : ℚ) / max (ans.bullets.length : ℚ) 1
    rw [hfold]
    norm_num [List.enum_length]

/-- With at least one bullet, full fractional coverage is exactly 1 and the
report passes. -/
theorem validate_all_covered_passed (ans : AnswerResponse)
    (h : ∀ b ∈ ans.bullets,
      ∃ lab, b.citations = [lab] ∧ lab ∈ ans.sources.map Citation.label)
    (hne : ans.bullets ≠ []) :
    (validate_answer ans).coverage = 1 ∧ (validate_answer ans).passed = true := by
  obtain ⟨_, hcov⟩ := validate_all_covered ans h
  have hlen : (1 : ℚ) ≤ (ans.bullets.length : ℚ) := by
    have h1 : 1 ≤ ans.bullets.length := List.length_pos.mpr hne
    exact_mod_cast h1
  have hmax : max (ans.bullets.length : ℚ) 1 = (ans.bullets.length : ℚ) :=
    max_eq_left hlen
  have hne0 : (ans.bullets.length : ℚ) ≠ 0 := by linarith
  have hcov1 : (validate_answer ans).coverage = 1 := by
    rw [hcov, hmax, div_self hne0]
  refine ⟨hcov1, ?_⟩
  have hp : (validate_answer ans).passed
      = decide ((validate_answer ans).coverage ≥ 19/20) := rfl
  rw [hp, hcov1]
  exact decide_eq_true (by norm_num)

/-- The fallback path always yields at least one bullet for a non-empty
chunk list. -/
theorem fallback_bullets_ne_nil (minB maxB : Nat) (chunks : List DocumentChunk)
    (cits : List (String × Citation)) (hne : chunks ≠ []) :
    fallback_bullets minB maxB chunks cits ≠ [] := by
  cases chunks with
  | nil => exact absurd rfl hne
  | cons c rest =>
    refine List.length_pos.mp ?_
    rw [fallback_bullets, fallback_loop]
    rw [if_neg (by simp)]
    dsimp only
    split
    · simp
    · calc 0 < 1 := Nat.zero_lt_one
        _ ≤ _ := by
          refine le_trans ?_ (fallback_loop_length_mono _ _ _ _ _)
          simp

/-- C4 amended: on the FALLBACK path (the deterministic parse of the refined
collaborator output yields zero bullets), every citation label in every
bullet of the produced answer equals the label of some Citation in the
answer's sources; the sources labels are the dense strings "1","2",…
assigned in first-seen chunk-URL order; and validating such an answer yields
zero issues (in particular zero unknown-citation issues), coverage 1, and a
passing report.  On the normal parse path the bullets cite whatever digit
tags the collaborator emitted, so no such guarantee holds there (see the
counterexample). -/
theorem fallback_answer_citations_known (minB maxB : Nat) (q rid refined : String)
    (chunks : List DocumentChunk) (hne : chunks ≠ [])
    (hparse : parse_bullets refined = []) :
    ∃ ans, synthesize minB maxB q rid chunks refined = Except.ok ans ∧
      ans.bullets = fallback_bullets minB maxB chunks (build_citations chunks) ∧
      (∀ b ∈ ans.bullets, ∀ lab ∈ b.citations, lab ∈ ans.sources.map Citation.label) ∧
      ans.sources.map Citation.label
        = (List.range ans.sources.length).map (fun i => toString (i + 1)) ∧
      (validate_answer ans).issues = [] ∧
      (validate_answer ans).coverage = 1 ∧
      (validate_answer ans).passed = true := by
  have hempty : chunks.isEmpty = false := by
    cases chunks with
    | nil => exact absurd rfl hne
    | cons c rest => rfl
  set cits := build_citations chunks with hcits
  set bl := fallback_bullets minB maxB chunks cits with hbl
  set ans : AnswerResponse :=
    { question := q, bullets := bl, sources := cits.map Prod.snd, runId := rid }
    with hans
  have hsynth : synthesize minB maxB q rid chunks refined = Except.ok ans := by
    rw [synthesize, hempty]
    simp only [Bool.false_eq_true, if_false]
    rw [hparse]
    rfl
  have hsources : ans.sources = cits.map Prod.snd := rfl
  have hbullets : ans.bullets = bl := rfl
  have hlabels : ans.sources.map Citation.label = cits.map (fun p => p.2.label) := by
    rw [hsources, List.map_map]
    rfl
  have hsingle : ∀ b ∈ ans.bullets,
      ∃ lab, b.citations = [lab] ∧ lab ∈ ans.sources.map Citation.label := by
    rw [hbullets, hbl, hlabels]
    refine fallback_loop_citations _ _ chunks [] [] (by simp) ?_
    intro c hc
    exact build_citations_url_present chunks [] c hc
  have hknown : ∀ b ∈ ans.bullets, ∀ lab ∈ b.citations,
      lab ∈ ans.sources.map Citation.label := by
    intro b hb lab hlab
    obtain ⟨lab0, hcit, hlab0⟩ := hsingle b hb
    rw [hcit] at hlab
    rcases List.mem_singleton.mp hlab with rfl
    exact hlab0
  have hdense : ans.sources.map Citation.label
      = (List.range ans.sources.length).map (fun i => toString (i + 1)) := by
    rw [hlabels, hsources, List.length_map]
    exact build_citations_labels chunks
  obtain ⟨hiss, _⟩ := validate_all_covered ans hsingle
  obtain ⟨hcov, hpass⟩ := validate_all_covered_passed ans hsingle
    (by rw [hbullets, hbl]; exact fallback_bullets_ne_nil minB maxB chunks cits hne)
  exact ⟨ans, hsynth, hbullets.trans hbl, hknown, hdense, hiss, hcov, hpass⟩

/-- C4 amended witness: the fallback-path guarantee instantiated at one
concrete chunk and an empty collaborator transcript (which parses to zero
bullets). -/
theorem fallback_answer_citations_known_witness :
    ∃ ans, synthesize 3 7 "q" "r" [c4_chunk] "" = Except.ok ans ∧
      ans.bullets = fallback_bullets 3 7 [c4_chunk] (build_citations [c4_chunk]) ∧
      (∀ b ∈ ans.bullets, ∀ lab ∈ b.citations, lab ∈ ans.sources.map Citation.label) ∧
      ans.sources.map Citation.label
        = (List.range ans.sources.length).map (fun i => toString (i + 1)) ∧
      (validate_answer ans).issues = [] ∧
      (validate_answer ans).coverage = 1 ∧
      (validate_answer ans).passed = true :=
  fallback_answer_citations_known 3 7 "q" "r" "" [c4_chunk] (by decide) (by decide)

/-! ## Retrieval ranker (src/core/rank.py)

The embedding collaborator (`SentenceTransformer`) and the reranking
collaborator (`CrossEncoder`) are optional parameters; `none` models the
"model unavailable" state.  Vectors are lists of rationals; `np.dot` of the
chunk-embedding matrix with the query embedding is a per-row dot product, and
`ndarray.size` of an (n, 768) matrix is the total element count n·768. -/

/-- The zero matrix `np.zeros((len(texts), 768))` `Retriever._embed` returns
when the embedder is unavailable. -/
def zero_embed (texts : List String) : List (List ℚ) :=
  texts.map (fun _ => List.replicate 768 0)

/-- `ndarray.size`: total number of elements. -/
def matrix_size (m : List (List ℚ)) : Nat := (m.map List.length).sum

/-- A row dot product (`np.dot`). -/
def dot_product (a b : List ℚ) : ℚ := (List.zipWith (fun x y => x * y) a b).sum

/-- `Retriever._embed` from src/core/rank.py: the embedder output, or the
zero matrix when the collaborator is unavailable. -/
def run_embed (embedder : Option (String → List ℚ)) (texts : List String) :
    List (List ℚ) :=
  match embedder with
  | none => zero_embed texts
  | some f => texts.map f

/-- `Retriever._lexical_score` from src/core/rank.py:
`|query_terms ∩ chunk_terms| / len(query_terms or {1})` over lower-cased
whitespace-token sets. -/
def lexical_score (query : String) (chunk : DocumentChunk) : ℚ :=
  let query_terms := ((py_words query).map py_lower).dedup
  let chunk_terms := ((py_words chunk.text).map py_lower).dedup
  if chunk_terms.isEmpty then 0
  else
    let overlap := query_terms.filter (fun t => decide (t ∈ chunk_terms))
    (overlap.length : ℚ)
      / (((if query_terms.isEmpty then 1 else query_terms.length) : ℕ) : ℚ)

/-- `Retriever.rank` from src/core/rank.py.  The Python `sorted(...,
reverse=True)` calls are stable descending sorts, modelled by
`List.insertionSort` with the ≥-on-score relation (which is likewise
stable).  In the else-branch each chunk's `score` attribute is overwritten
with its stage-A score before sorting, exactly as the in-place mutation
does; in the `embeddings.size == 0` branch the chunks are left unmutated and
`_rerank`'s unavailable-collaborator fallback therefore reads the chunks'
ORIGINAL scores, not the lexical ones. -/
def rank_model (embedder : Option (String → List ℚ))
    (reranker : Option (String → String → ℚ))
    (query : String) (chunks : List DocumentChunk) (topK : Nat) :
    List DocumentChunk :=
  match chunks with
  | [] => []
  | _ :: _ =>
    let embeddings := run_embed embedder (chunks.map (fun c => c.text))
    let scored :=
      if matrix_size embeddings = 0 then
        chunks.map (fun c => (c, lexical_score query c))
      else
        let query_embedding := (run_embed embedder [query]).headD []
        let scores := embeddings.map (fun e => dot_product e query_embedding)
        let updated := (List.zip chunks scores).map
          (fun p => ({ p.1 with score := p.2 }, p.2))
        (List.insertionSort (fun x y => y.2 ≤ x.2) updated).take (topK * 2)
    let candidates := scored.map Prod.fst
    let reranked :=
      match reranker with
      | none => candidates.map (fun c => (c, c.score))
      | some f => candidates.map (fun c => (c, f query c.text))
    ((List.insertionSort (fun x y => y.2 ≤ x.2) reranked).take topK).map
      (fun p => { p.1 with score := p.2 })

/-- A dot product with a zero vector on the left is zero. -/
theorem dot_product_zero_left (n : Nat) (b : List ℚ) :
    dot_product (List.replicate n 0) b = 0 := by
  induction n generalizing b with
  | zero => simp [dot_product]
  | succ n ih =>
    cases b with
    | nil => simp [dot_product]
    | cons y ys =>
      have hys := ih ys
      rw [dot_product] at hys ⊢
      simp only [List.replicate_succ, List.zipWith_cons_cons, List.sum_cons,
        zero_mul, zero_add]
      exact hys

/-- Pairwise holds for a universally true relation. -/
theorem pairwise_of_total {α : Type} (R : α → α → Prop) (h : ∀ a b, R a b) :
    ∀ (l : List α), l.Pairwise R := by
  intro l
  induction l with
  | nil => exact List.Pairwise.nil
  | cons x xs ih => exact List.Pairwise.cons (fun b _ => h x b) ih

/-- `_embed` with the collaborator unavailable is the constant zero-row map. -/
theorem run_embed_none (ts : List String) :
    run_embed none ts = ts.map (fun _ => List.replicate 768 (0:ℚ)) := rfl

/-- The size of the zero matrix `_embed` returns for `ts` texts is 768·|ts| —
in particular it is NOT zero for a non-empty input. -/
theorem matrix_size_zero_embed (ts : List String) :
    matrix_size (zero_embed ts) = 768 * ts.length := by
  induction ts with
  | nil => rfl
  | cons t ts ih =>
    simp only [zero_embed, matrix_size, List.map_cons, List.length_replicate,
      List.sum_cons, List.length_cons] at *
    omega

/-- Zipping a list with its own constant image pairs each element with the
constant. -/
theorem zip_with_const {α β : Type} (a : β) :
    ∀ (l : List α), l.zip (l.map (fun _ => a)) = l.map (fun x => (x, a)) := by
  intro l
  induction l with
  | nil => rfl
  | cons x xs ih => simp only [List.map_cons, List.zip_cons_cons, ih]

/-- C3 helper: with the embedding collaborator unavailable (and the reranker
unavailable as well), `rank` does NOT fall back to lexical scoring: `_embed`
returns the n×768 zero matrix, whose `size` is 768·n ≠ 0, so the
`embeddings.size == 0` branch is unreachable; every stage-A score is the dot
product with the zero query vector, i.e. 0; both stable sorts leave the
order unchanged; the result is the first `top_k` chunks in input order, each
with its score overwritten to 0 — not the descending lexical-score order the
spec describes. -/
theorem rank_model_embedder_unavailable (query : String) (chunks : List DocumentChunk)
    (topK : Nat) (hne : chunks ≠ []) :
    rank_model none none query chunks topK
      = (chunks.map (fun c => { c with score := 0 })).take topK := by
  cases chunks with
  | nil => exact absurd rfl hne
  | cons c0 rest =>
    simp only [rank_model]
    have hsz : ¬ (matrix_size (run_embed none (List.map (fun c => c.text) (c0 :: rest))) = 0) := by
      rw [show run_embed none (List.map (fun c => c.text) (c0 :: rest))
          = zero_embed (List.map (fun c => c.text) (c0 :: rest)) from rfl]
      rw [matrix_size_zero_embed]
      simp
    rw [if_neg hsz]
    simp only [run_embed_none, List.map_cons, List.map_nil, List.headD_cons, List.map_map]
    simp only [Function.comp_def, dot_product_zero_left]
    have hz : (c0 :: rest).zip ((0:ℚ) :: List.map (fun _ => (0:ℚ)) rest)
        = (c0, (0:ℚ)) :: rest.zip (List.map (fun _ => (0:ℚ)) rest) := rfl
    rw [hz, zip_with_const]
    have hm : List.map (fun (p : DocumentChunk × ℚ) => ({ p.1 with score := p.2 }, p.2))
          ((c0, (0:ℚ)) :: rest.map (fun x => (x, (0:ℚ))))
        = (c0 :: rest).map (fun c => (({ c with score := 0 } : DocumentChunk), (0:ℚ))) := by
      rw [List.map_cons, List.map_map]
      rfl
    rw [hm]
    have hsort1 : List.insertionSort (fun x y : DocumentChunk × ℚ => y.2 ≤ x.2)
          ((c0 :: rest).map (fun c => (({ c with score := 0 } : DocumentChunk), (0:ℚ))))
        = (c0 :: rest).map (fun c => (({ c with score := 0 } : DocumentChunk), (0:ℚ))) := by
      refine List.Sorted.insertionSort_eq ?_
      refine List.pairwise_map.mpr ?_
      exact pairwise_of_total _ (fun a b => le_refl (0:ℚ)) _
    rw [hsort1]
    rw [← List.map_take]
    rw [List.map_map]
    have hcomp : ((fun (x : DocumentChunk × ℚ) => (x.1, x.1.score)) ∘
          (fun c : DocumentChunk => (({ c with score := 0 } : DocumentChunk), (0:ℚ))))
        = fun c : DocumentChunk => (({ c with score := 0 } : DocumentChunk), (0:ℚ)) := rfl
    rw [hcomp]
    have hsort2 : List.insertionSort (fun x y : DocumentChunk × ℚ => y.2 ≤ x.2)
          (((c0 :: rest).take (topK * 2)).map
            (fun c => (({ c with score := 0 } : DocumentChunk), (0:ℚ))))
        = ((c0 :: rest).take (topK * 2)).map
            (fun c => (({ c with score := 0 } : DocumentChunk), (0:ℚ))) := by
      refine List.Sorted.insertionSort_eq ?_
      refine List.pairwise_map.mpr ?_
      exact pairwise_of_total _ (fun a b => le_refl (0:ℚ)) _
    rw [hsort2]
    rw [← List.map_take, List.take_take, List.map_map]
    have hmin : min topK (topK * 2) = topK := Nat.min_eq_left (by omega)
    rw [hmin]
    rw [List.map_take]
    rfl

/-- Chunk with no lexical overlap with the query "alpha". -/
def c3_chunk1 : DocumentChunk :=
  { id := "k1", url := "https://one.example", title := "One",
    text := "beta beta", score := 0, sourceType := SourceType.blogs }

/-- Chunk with full lexical overlap with the query "alpha". -/
def c3_chunk2 : DocumentChunk :=
  { id := "k2", url := "https://two.example", title := "Two",
    text := "alpha", score := 0, sourceType := SourceType.blogs }

/-- C3, evaluated at the failing input: with the embedding collaborator
unavailable, `_embed` returns a zero matrix of size 2·768 = 1536 ≠ 0, so the
`embeddings.size == 0` lexical fallback never triggers; the ranker returns
the chunks in INPUT order with all scores 0, even though the lexical scores
are 0 and 1 — under the claimed lexical fallback the "alpha" chunk would
have to be ranked first.  The code contradicts its own fallback branch
(`# fallback lexical scoring`, reachable only when `embeddings.size == 0`,
which a zero matrix of shape (n, 768) never satisfies). -/
theorem rank_lexical_fallback_dead :
    matrix_size (run_embed none ["beta beta", "alpha"]) = 1536 ∧
    rank_model none none "alpha" [c3_chunk1, c3_chunk2] 2
      = [{ c3_chunk1 with score := 0 }, { c3_chunk2 with score := 0 }] ∧
    lexical_score "alpha" c3_chunk1 = 0 ∧
    lexical_score "alpha" c3_chunk2 = 1 := by
  refine ⟨?_, ?_, ?_, ?_⟩
  · rw [show run_embed none ["beta beta", "alpha"]
        = zero_embed ["beta beta", "alpha"] from rfl]
    rw [matrix_size_zero_embed]
    norm_num
  · rw [rank_model_embedder_unavailable "alpha" [c3_chunk1, c3_chunk2] 2 (by decide)]
    rfl
  · rw [show lexical_score "alpha" c3_chunk1 = ((0:ℕ):ℚ)/((1:ℕ):ℚ) from rfl]
    norm_num
  · rw [show lexical_score "alpha" c3_chunk2 = ((1:ℕ):ℚ)/((1:ℕ):ℚ) from rfl]
    norm_num

/-! ## Search aggregator (src/core/search.py)

`SearchService.batch_search` iterates the planner's queries, calls the
provider per query, and folds every provider result — in query order, then
result order — through the dedupe map.  The embedded `batch_search` therefore
takes the concatenation of the provider's per-query result lists as one list.
The insertion-ordered dict `seen_urls` is an association list; replacing the
value for a key keeps its position, exactly as a Python dict update does. -/

/-- The per-result body of the dedupe loop in `SearchService.batch_search`:
first occurrence of a URL is stored; a later result replaces the stored one
only when its score is strictly greater. -/
def dedupe_step (acc : List (String × SearchResult)) (r : SearchResult) :
    List (String × SearchResult) :=
  match acc.find? (fun p => decide (p.1 = r.url)) with
  | some existing =>
    if existing.2.score < r.score then
      acc.map (fun p => if p.1 = r.url then (p.1, r) else p)
    else acc
  | none => acc ++ [(r.url, r)]

/-- The `seen_urls` map after folding all provider results. -/
def dedupe_fold (results : List SearchResult) : List (String × SearchResult) :=
  results.foldl dedupe_step []

/-- `list(seen_urls.values())`. -/
def deduped_results (results : List SearchResult) : List SearchResult :=
  (dedupe_fold results).map Prod.snd

/-- `seen_urls.get(u)` after the fold. -/
def dedupe_lookup (results : List SearchResult) (u : String) : Option SearchResult :=
  ((dedupe_fold results).find? (fun p => decide (p.1 = u))).map Prod.snd

/-- `buckets.setdefault(result.source_type, []).append(result)`; the key list
keeps dict insertion order. -/
def bucket_add : List (SourceType × List SearchResult) → SearchResult →
    List (SourceType × List SearchResult)
  | [], r => [(r.sourceType, [r])]
  | (st, b) :: rest, r =>
    if st = r.sourceType then (st, b ++ [r]) :: rest
    else (st, b) :: bucket_add rest r

/-- The buckets dict of `_limit_with_diversity`. -/
def buckets_of (results : List SearchResult) : List (SourceType × List SearchResult) :=
  results.foldl bucket_add []

/-- `bucket.sort(key=lambda item: item.score, reverse=True)` for every
bucket: a stable descending sort, modelled by insertion sort on ≥-score. -/
def sort_buckets (B : List (SourceType × List SearchResult)) :
    List (SourceType × List SearchResult) :=
  B.map (fun p => (p.1, List.insertionSort (fun x y : SearchResult => y.score ≤ x.score) p.2))

/-- `entry[1][0].score if entry[1] else 0`: the sort key of the per-pass
bucket ordering. -/
def head_key : SourceType × List SearchResult → ℚ
  | (_, []) => 0
  | (_, r :: _) => r.score

/-- `sorted(buckets.items(), key=..., reverse=True)`: the stable descending
snapshot ordering of the buckets taken at the start of each pass. -/
def snapshot_sort (B : List (SourceType × List SearchResult)) :
    List (SourceType × List SearchResult) :=
  List.insertionSort (fun p q => head_key q ≤ head_key p) B

/-- One pass of the round-robin `while` loop: walk the sorted snapshot,
popping the head of each non-empty bucket, stopping as soon as `top_k`
results are collected.  Returns (ordered, the keys popped in this pass,
the `progressed` flag). -/
def pass_pop (topK : Nat) :
    List (SourceType × List SearchResult) → List SearchResult → List SourceType →
    Bool → List SearchResult × List SourceType × Bool
  | [], ordered, popped, progressed => (ordered, popped, progressed)
  | (st, bucket) :: rest, ordered, popped, progressed =>
    match bucket with
    | [] => pass_pop topK rest ordered popped progressed
    | r :: _ =>
      if topK ≤ ordered.length + 1 then (ordered ++ [r], popped ++ [st], true)
      else pass_pop topK rest (ordered ++ [r]) (popped ++ [st]) true

/-- Apply the per-pass `bucket.pop(0)` mutations back to the buckets dict:
every popped key loses its head. -/
def pop_heads (B : List (SourceType × List SearchResult)) (popped : List SourceType) :
    List (SourceType × List SearchResult) :=
  B.map (fun p => if p.1 ∈ popped then (p.1, p.2.tail) else p)

/-- The `while len(ordered) < top_k` loop of `_limit_with_diversity`,
fuelled.  Each progressing pass grows `ordered` by at least one, and the
loop stops once `top_k` is reached, so fuel `top_k + 1` (what
`limit_with_diversity` supplies) never runs out.  Returns (ordered, final
buckets). -/
def diversity_loop (topK : Nat) :
    Nat → List (SourceType × List SearchResult) → List SearchResult →
    List SearchResult × List (SourceType × List SearchResult)
  | 0, B, ordered => (ordered, B)
  | fuel + 1, B, ordered =>
    if topK ≤ ordered.length then (ordered, B)
    else
      let res := pass_pop topK (snapshot_sort B) ordered [] false
      let B2 := pop_heads B res.2.1
      if res.2.2 then diversity_loop topK fuel B2 res.1 else (res.1, B2)

/-- The flattened contents of the buckets dict
(`[result for bucket in buckets.values() for result in bucket]`). -/
def buckets_flat (B : List (SourceType × List SearchResult)) : List SearchResult :=
  (B.map Prod.snd).flatten

/-- `SearchService._limit_with_diversity` from src/core/search.py. -/
def limit_with_diversity (results : List SearchResult) (topK : Nat) :
    List SearchResult :=
  if results.length ≤ topK then results
  else
    let B := sort_buckets (buckets_of results)
    let res := diversity_loop topK (topK + 1) B []
    if topK ≤ res.1.length then res.1.take topK
    else
      let remaining := List.insertionSort (fun x y : SearchResult => y.score ≤ x.score)
        (buckets_flat res.2)
      (res.1 ++ remaining).take topK

/-- `SearchService.batch_search` from src/core/search.py, over the
concatenated provider results: with dedupe enabled the URL-deduped values
are passed to the diversity limiter, otherwise the raw concatenation is. -/
def batch_search (dedupe : Bool) (providerResults : List SearchResult) (topK : Nat) :
    List SearchResult :=
  if dedupe then limit_with_diversity (deduped_results providerResults) topK
  else limit_with_diversity providerResults topK

/-- Proof device: the invariant of the dedupe fold.  After processing the
results in `processed`, the map `acc` (1) stores each result under its own
URL, (2) has pairwise-distinct keys, (3) stores, for each key, the first
result attaining the maximum score among the processed results with that
URL — everything before it with the same URL scores strictly less, and
everything after scores at most as much — and (4) has an entry for every
processed URL. -/
def DedupeInv (processed : List SearchResult) (acc : List (String × SearchResult)) : Prop :=
  (∀ p ∈ acc, p.2.url = p.1) ∧
  (acc.map Prod.fst).Nodup ∧
  (∀ u k, ((acc.find? (fun p => decide (p.1 = u))).map Prod.snd) = some k →
    ∃ pre post, processed = pre ++ k :: post ∧ k.url = u ∧
      (∀ x ∈ pre, x.url = u → x.score < k.score) ∧
      (∀ y ∈ post, y.url = u → y.score ≤ k.score)) ∧
  (∀ s ∈ processed, ((acc.find? (fun p => decide (p.1 = s.url)))).isSome)

/-- `find?` over an append, hit in the first part. -/
theorem find?_append_of_some {α : Type} (p : α → Bool) (l₁ l₂ : List α) (a : α)
    (h : l₁.find? p = some a) : (l₁ ++ l₂).find? p = some a := by
  induction l₁ with
  | nil => simp at h
  | cons x t ih =>
    by_cases hp : p x
    · rw [List.find?_cons_of_pos _ hp] at h
      rw [List.cons_append, List.find?_cons_of_pos _ hp]
      exact h
    · rw [List.find?_cons_of_neg _ hp] at h
      rw [List.cons_append, List.find?_cons_of_neg _ hp]
      exact ih h

/-- `find?` over an append, miss in the first part. -/
theorem find?_append_of_none {α : Type} (p : α → Bool) (l₁ l₂ : List α)
    (h : l₁.find? p = none) : (l₁ ++ l₂).find? p = l₂.find? p := by
  induction l₁ with
  | nil => simp
  | cons x t ih =>
    by_cases hp : p x
    · rw [List.find?_cons_of_pos _ hp] at h
      cases h
    · rw [List.find?_cons_of_neg _ hp] at h
      rw [List.cons_append, List.find?_cons_of_neg _ hp]
      exact ih h

/-- Replacing the value stored under `r.url` leaves lookups of other keys
unchanged. -/
theorem find?_map_replace (acc : List (String × SearchResult)) (r : SearchResult)
    (u : String) (hu : ¬ u = r.url) :
    (acc.map (fun p => if p.1 = r.url then (p.1, r) else p)).find?
        (fun p => decide (p.1 = u))
      = acc.find? (fun p => decide (p.1 = u)) := by
  induction acc with
  | nil => rfl
  | cons q t ih =>
    by_cases hq : q.1 = u
    · have hqr : ¬ q.1 = r.url := by rw [hq]; exact hu
      rw [List.map_cons, if_neg hqr]
      rw [List.find?_cons_of_pos _ (by simpa using hq),
        List.find?_cons_of_pos _ (by simpa using hq)]
    · rw [List.map_cons]
      by_cases hqr : q.1 = r.url
      · rw [if_pos hqr]
        rw [List.find?_cons_of_neg _ (by simpa using hq),
          List.find?_cons_of_neg _ (by simpa using hq)]
        exact ih
      · rw [if_neg hqr]
        rw [List.find?_cons_of_neg _ (by simpa using hq),
          List.find?_cons_of_neg _ (by simpa using hq)]
        exact ih

/-- Replacing the value stored under `r.url` makes the lookup of `r.url`
return the replacement (when the key was present). -/
theorem find?_map_replace_hit (acc : List (String × SearchResult)) (r : SearchResult) :
    ∀ existing, acc.find? (fun p => decide (p.1 = r.url)) = some existing →
    (acc.map (fun p => if p.1 = r.url then (p.1, r) else p)).find?
        (fun p => decide (p.1 = r.url)) = some (existing.1, r) := by
  induction acc with
  | nil => intro e h; simp at h
  | cons q t ih =>
    intro e h
    by_cases hq : q.1 = r.url
    · rw [List.find?_cons_of_pos _ (by simpa using hq)] at h
      cases h
      rw [List.map_cons, if_pos hq]
      rw [List.find?_cons_of_pos _ (by simpa using hq)]
    · rw [List.find?_cons_of_neg _ (by simpa using hq)] at h
      rw [List.map_cons, if_neg hq]
      rw [List.find?_cons_of_neg _ (by simpa using hq)]
      exact ih e h

/-- The in-place value replacement keeps the key list. -/
theorem map_replace_keys (acc : List (String × SearchResult)) (r : SearchResult) :
    (acc.map (fun p => if p.1 = r.url then (p.1, r) else p)).map Prod.fst
      = acc.map Prod.fst := by
  rw [List.map_map]
  refine List.map_congr_left ?_
  intro p _
  by_cases hp : p.1 = r.url
  · simp [hp]
  · simp [hp]

/-- With pairwise-distinct keys, `find?` returns exactly the stored entry. -/
theorem find?_of_nodup_keys (acc : List (String × SearchResult)) (u : String)
    (v : SearchResult) (hmem : (u, v) ∈ acc) (hnd : (acc.map Prod.fst).Nodup) :
    acc.find? (fun p => decide (p.1 = u)) = some (u, v) := by
  induction acc with
  | nil => cases hmem
  | cons q t ih =>
    rw [List.map_cons, List.nodup_cons] at hnd
    rcases List.mem_cons.mp hmem with hq | hmem_t
    · subst hq
      rw [List.find?_cons_of_pos _ (by simp)]
    · have hu : u ∈ t.map Prod.fst := by
        exact List.mem_map_of_mem Prod.fst hmem_t
      have hqu : ¬ q.1 = u := fun hc => hnd.1 (hc ▸ hu)
      rw [List.find?_cons_of_neg _ (by simpa using hqu)]
      exact ih hmem_t hnd.2

/-- One dedupe step preserves the invariant. -/
theorem dedupe_step_inv (processed : List SearchResult)
    (acc : List (String × SearchResult)) (r : SearchResult)
    (h : DedupeInv processed acc) : DedupeInv (processed ++ [r]) (dedupe_step acc r) := by
  obtain ⟨h1, h2, h3, h4⟩ := h
  rw [dedupe_step]
  cases hfind : acc.find? (fun p => decide (p.1 = r.url)) with
  | none =>
    have hnokey : ∀ p ∈ acc, ¬ p.1 = r.url := by
      intro p hp hc
      have := List.find?_eq_none.mp hfind p hp
      simp [hc] at this
    refine ⟨?_, ?_, ?_, ?_⟩
    · intro p hp
      rcases List.mem_append.mp hp with hp | hp
      · exact h1 p hp
      · rcases List.mem_singleton.mp hp with rfl
        rfl
    · rw [List.map_append]
      refine List.Nodup.append h2 (List.nodup_singleton _) ?_
      intro a ha hb
      rcases List.mem_singleton.mp hb with rfl
      obtain ⟨p, hp, hpa⟩ := List.mem_map.mp ha
      exact hnokey p hp hpa
    · intro u k hk
      by_cases hu : u = r.url
      · subst hu
        rw [find?_append_of_none _ _ _ hfind] at hk
        rw [List.find?_cons_of_pos _ (by simp)] at hk
        simp only [Option.map_some', Option.some.injEq] at hk
        subst hk
        refine ⟨processed, [], by simp, rfl, ?_, by simp⟩
        intro x hx hurl
        have hsome := h4 x hx
        rw [hurl, hfind] at hsome
        simp at hsome
      · cases hacc : acc.find? (fun p => decide (p.1 = u)) with
        | some e =>
          rw [find?_append_of_some _ _ _ _ hacc] at hk
          obtain ⟨pre, post, hdec, hurl, hpre, hpost⟩ := h3 u k (by rw [hacc]; exact hk)
          refine ⟨pre, post ++ [r], by rw [hdec]; simp, hurl, hpre, ?_⟩
          intro y hy hyu
          rcases List.mem_append.mp hy with hy | hy
          · exact hpost y hy hyu
          · rcases List.mem_singleton.mp hy with rfl
            exact absurd hyu.symm hu
        | none =>
          rw [find?_append_of_none _ _ _ hacc] at hk
          rw [List.find?_cons_of_neg _ (by simpa using fun hc : r.url = u => hu hc.symm)] at hk
          simp at hk
    · intro s hs
      rcases List.mem_append.mp hs with hs | hs
      · obtain ⟨e, he⟩ := Option.isSome_iff_exists.mp (h4 s hs)
        rw [find?_append_of_some _ _ _ _ he]
        rfl
      · rcases List.mem_singleton.mp hs with rfl
        rw [find?_append_of_none _ _ _ hfind]
        rw [List.find?_cons_of_pos _ (by simp)]
        rfl
  | some existing =>
    dsimp only
    by_cases hscore : existing.2.score < r.score
    · rw [if_pos hscore]
      refine ⟨?_, ?_, ?_, ?_⟩
      · intro p hp
        obtain ⟨q, hq, hqe⟩ := List.mem_map.mp hp
        by_cases hqk : q.1 = r.url
        · rw [if_pos hqk] at hqe
          cases hqe
          simpa using hqk.symm
        · rw [if_neg hqk] at hqe
          cases hqe
          exact h1 _ hq
      · rw [map_replace_keys]
        exact h2
      · intro u k hk
        by_cases hu : u = r.url
        · subst hu
          rw [find?_map_replace_hit acc r existing hfind] at hk
          simp only [Option.map_some', Option.some.injEq] at hk
          subst hk
          obtain ⟨pre0, post0, hdec0, hurl0, hpre0, hpost0⟩ :=
            h3 r.url existing.2 (by rw [hfind]; rfl)
          refine ⟨processed, [], by simp, rfl, ?_, by simp⟩
          intro x hx hxu
          rw [hdec0] at hx
          rcases List.mem_append.mp hx with hx | hx
          · exact lt_trans (hpre0 x hx hxu) hscore
          · rcases List.mem_cons.mp hx with rfl | hx
            · exact hscore
            · exact lt_of_le_of_lt (hpost0 x hx hxu) hscore
        · rw [find?_map_replace acc r u hu] at hk
          obtain ⟨pre, post, hdec, hurl, hpre, hpost⟩ := h3 u k hk
          refine ⟨pre, post ++ [r], by rw [hdec]; simp, hurl, hpre, ?_⟩
          intro y hy hyu
          rcases List.mem_append.mp hy with hy | hy
          · exact hpost y hy hyu
          · rcases List.mem_singleton.mp hy with rfl
            exact absurd hyu.symm hu
      · intro s hs
        rcases List.mem_append.mp hs with hs | hs
        · have hsome := h4 s hs
          by_cases hsu : s.url = r.url
          · rw [hsu, find?_map_replace_hit acc r existing hfind]
            rfl
          · rw [find?_map_replace acc r s.url hsu]
            exact hsome
        · have hs' : s = r := List.mem_singleton.mp hs
          rw [hs', find?_map_replace_hit acc r existing hfind]
          rfl
    · rw [if_neg hscore]
      refine ⟨h1, h2, ?_, ?_⟩
      · intro u k hk
        obtain ⟨pre, post, hdec, hurl, hpre, hpost⟩ := h3 u k hk
        refine ⟨pre, post ++ [r], by rw [hdec]; simp, hurl, hpre, ?_⟩
        intro y hy hyu
        rcases List.mem_append.mp hy with hy | hy
        · exact hpost y hy hyu
        · rcases List.mem_singleton.mp hy with rfl
          have hke : k = existing.2 := by
            have hk2 := hk
            rw [← hyu, hfind] at hk2
            simpa using hk2.symm
          rw [hke]
          exact le_of_not_lt hscore
      · intro s hs
        rcases List.mem_append.mp hs with hs | hs
        · exact h4 s hs
        · rcases List.mem_singleton.mp hs with rfl
          rw [hfind]
          rfl

/-- The dedupe fold preserves the invariant over any processed prefix. -/
theorem dedupe_fold_inv_aux (rs : List SearchResult) :
    ∀ (processed : List SearchResult) (acc : List (String × SearchResult)),
      DedupeInv processed acc → DedupeInv (processed ++ rs) (rs.foldl dedupe_step acc) := by
  induction rs with
  | nil =>
    intro processed acc h
    simpa using h
  | cons r rest ih =>
    intro processed acc h
    have hstep := ih (processed ++ [r]) (dedupe_step acc r) (dedupe_step_inv _ _ _ h)
    rw [List.foldl_cons]
    rw [List.append_assoc] at hstep
    simpa using hstep

/-- The invariant holds for the finished dedupe map. -/
theorem dedupe_fold_inv (rs : List SearchResult) : DedupeInv rs (dedupe_fold rs) := by
  have hbase : DedupeInv [] [] := by
    refine ⟨by simp, by simp, ?_, by simp⟩
    intro u k hk
    simp at hk
  simpa using dedupe_fold_inv_aux rs [] [] hbase

/-- The result kept for a URL is the first result attaining the maximum
score among all results with that URL (helper shared by the dedupe
theorems). -/
theorem dedupe_kept_decomposition (results : List SearchResult) (k : SearchResult)
    (hk : k ∈ deduped_results results) :
    ∃ pre post, results = pre ++ k :: post ∧
      (∀ x ∈ pre, x.url = k.url → x.score < k.score) ∧
      (∀ y ∈ post, y.url = k.url → y.score ≤ k.score) := by
  obtain ⟨h1, h2, h3, _⟩ := dedupe_fold_inv results
  obtain ⟨p, hp, hpk⟩ := List.mem_map.mp hk
  have hurl : k.url = p.1 := by
    rw [← hpk]
    exact h1 p hp
  have hfind : (dedupe_fold results).find? (fun q => decide (q.1 = p.1))
      = some (p.1, p.2) :=
    find?_of_nodup_keys _ p.1 p.2 (by simpa using hp) h2
  obtain ⟨pre, post, hdec, _, hpre, hpost⟩ := h3 p.1 k (by rw [hfind]; simpa using hpk)
  refine ⟨pre, post, hdec, ?_, ?_⟩
  · intro x hx hxu
    exact hpre x hx (by rw [← hurl]; exact hxu)
  · intro y hy hyu
    exact hpost y hy (by rw [← hurl]; exact hyu)

/-- C10: within aggregator deduplication, the result kept for a URL is the
FIRST result attaining the maximum score among all results with that URL:
every earlier same-URL result scores strictly less (so on an exact score tie
the earlier, first-seen result wins — a stored result is replaced only by a
later result with a strictly greater score), and every later same-URL result
scores at most as much. -/
theorem dedupe_keeps_first_of_max (results : List SearchResult) (k : SearchResult)
    (hk : k ∈ deduped_results results) :
    ∃ pre post, results = pre ++ k :: post ∧
      (∀ x ∈ pre, x.url = k.url → x.score < k.score) ∧
      (∀ y ∈ post, y.url = k.url → y.score ≤ k.score) :=
  dedupe_kept_decomposition results k hk

/-- First of two equal-scored results sharing a URL. -/
def c10_r1 : SearchResult :=
  { url := "https://u.example", title := "first", snippet := "", score := 5,
    sourceType := SourceType.news }

/-- Second of two equal-scored results sharing a URL. -/
def c10_r2 : SearchResult :=
  { url := "https://u.example", title := "second", snippet := "", score := 5,
    sourceType := SourceType.news }

/-- C10 witness: with two equal-scored results for one URL, the dedupe map
keeps the first; the theorem instantiates at it. -/
theorem dedupe_keeps_first_of_max_witness :
    c10_r1 ∈ deduped_results [c10_r1, c10_r2] ∧
    ∃ pre post, [c10_r1, c10_r2] = pre ++ c10_r1 :: post ∧
      (∀ x ∈ pre, x.url = c10_r1.url → x.score < c10_r1.score) ∧
      (∀ y ∈ post, y.url = c10_r1.url → y.score ≤ c10_r1.score) :=
  ⟨by decide, dedupe_keeps_first_of_max [c10_r1, c10_r2] c10_r1 (by decide)⟩

/-- Permuting the outer list of lists permutes the flattening. -/
theorem perm_flatten {α : Type} {l₁ l₂ : List (List α)} (h : List.Perm l₁ l₂) :
    List.Perm l₁.flatten l₂.flatten := by
  induction h with
  | nil => exact List.Perm.refl _
  | cons x _ ih => simpa using ih.append_left x
  | swap a b l =>
    simp only [List.flatten_cons]
    have h1 : b ++ (a ++ l.flatten) = (b ++ a) ++ l.flatten := by rw [List.append_assoc]
    have h2 : a ++ (b ++ l.flatten) = (a ++ b) ++ l.flatten := by rw [List.append_assoc]
    rw [h1, h2]
    exact (List.perm_append_comm).append_right _
  | trans _ _ ih1 ih2 => exact ih1.trans ih2

/-- Appending a result to its bucket appends it to the flattened contents,
up to permutation. -/
theorem bucket_add_flatten (B : List (SourceType × List SearchResult)) (r : SearchResult) :
    List.Perm (buckets_flat (bucket_add B r)) (buckets_flat B ++ [r]) := by
  induction B with
  | nil => simp [bucket_add, buckets_flat]
  | cons p rest ih =>
    obtain ⟨st, b⟩ := p
    rw [bucket_add]
    by_cases hst : st = r.sourceType
    · rw [if_pos hst]
      simp only [buckets_flat, List.map_cons, List.flatten_cons]
      have h1 : (b ++ [r]) ++ (rest.map Prod.snd).flatten
          = b ++ ([r] ++ (rest.map Prod.snd).flatten) := by rw [List.append_assoc]
      have h2 : (b ++ (rest.map Prod.snd).flatten) ++ [r]
          = b ++ ((rest.map Prod.snd).flatten ++ [r]) := by rw [List.append_assoc]
      rw [h1, h2]
      exact (List.perm_append_comm).append_left b
    · rw [if_neg hst]
      simp only [buckets_flat, List.map_cons, List.flatten_cons] at *
      have h2 : (b ++ (rest.map Prod.snd).flatten) ++ [r]
          = b ++ ((rest.map Prod.snd).flatten ++ [r]) := by rw [List.append_assoc]
      rw [h2]
      exact ih.append_left b

/-- Bucketing is a partition: the flattened buckets are a permutation of the
results. -/
theorem buckets_of_flatten_aux (l : List SearchResult) :
    ∀ (B : List (SourceType × List SearchResult)),
      List.Perm (buckets_flat (l.foldl bucket_add B)) (buckets_flat B ++ l) := by
  induction l with
  | nil => intro B; simp
  | cons r rest ih =>
    intro B
    rw [List.foldl_cons]
    refine List.Perm.trans (ih (bucket_add B r)) ?_
    have h1 : buckets_flat B ++ r :: rest = (buckets_flat B ++ [r]) ++ rest := by simp
    rw [h1]
    exact (bucket_add_flatten B r).append_right rest

/-- The flattened buckets of `buckets_of` are a permutation of the input. -/
theorem buckets_of_flatten (results : List SearchResult) :
    List.Perm (buckets_flat (buckets_of results)) results := by
  have h := buckets_of_flatten_aux results []
  simpa [buckets_flat] using h

/-- Sorting every bucket permutes nothing overall. -/
theorem sort_buckets_flatten (B : List (SourceType × List SearchResult)) :
    List.Perm (buckets_flat (sort_buckets B)) (buckets_flat B) := by
  induction B with
  | nil => simp [sort_buckets, buckets_flat]
  | cons p rest ih =>
    simp only [sort_buckets, buckets_flat, List.map_cons, List.flatten_cons] at *
    exact (List.perm_insertionSort _ p.2).append ih

/-- `pop_heads` preserves the key list. -/
theorem pop_heads_keys (B : List (SourceType × List SearchResult)) (popped : List SourceType) :
    (pop_heads B popped).map Prod.fst = B.map Prod.fst := by
  rw [pop_heads, List.map_map]
  refine List.map_congr_left ?_
  intro p _
  by_cases hp : p.1 ∈ popped
  · simp [hp]
  · simp [hp]

/-- `pop_heads` with keys foreign to the buckets does nothing. -/
theorem pop_heads_of_disjoint (B : List (SourceType × List SearchResult))
    (popped : List SourceType) (h : ∀ p ∈ B, p.1 ∉ popped) :
    pop_heads B popped = B := by
  rw [pop_heads]
  have hcongr : B.map (fun p => if p.1 ∈ popped then (p.1, p.2.tail) else p) = B.map id :=
    List.map_congr_left (fun p hp => by rw [if_neg (h p hp)]; rfl)
  rw [hcongr, List.map_id]

/-- The ordered output of a pass does not depend on the popped/progressed
accumulators. -/
theorem pass_pop_fst_acc (topK : Nat) :
    ∀ (S : List (SourceType × List SearchResult)) (ordered : List SearchResult)
      (popped : List SourceType) (prog : Bool),
      (pass_pop topK S ordered popped prog).1
        = (pass_pop topK S ordered [] false).1 := by
  intro S
  induction S with
  | nil => intro ordered popped prog; rfl
  | cons p rest ih =>
    intro ordered popped prog
    obtain ⟨st, b⟩ := p
    cases b with
    | nil =>
      rw [pass_pop, pass_pop]
      rw [ih ordered popped prog, ih ordered [] false]
    | cons r b' =>
      rw [pass_pop, pass_pop]
      by_cases htop : topK ≤ ordered.length + 1
      · rw [if_pos htop, if_pos htop]
      · rw [if_neg htop, if_neg htop]
        rw [ih (ordered ++ [r]) (popped ++ [st]) true, ih (ordered ++ [r]) ([] ++ [st]) true]

/-- The keys a pass pops do not depend on the accumulators either; the
accumulator is simply extended. -/
theorem pass_pop_popped_acc (topK : Nat) :
    ∀ (S : List (SourceType × List SearchResult)) (ordered : List SearchResult)
      (popped : List SourceType) (prog : Bool),
      (pass_pop topK S ordered popped prog).2.1
        = popped ++ (pass_pop topK S ordered [] false).2.1 := by
  intro S
  induction S with
  | nil => intro ordered popped prog; simp [pass_pop]
  | cons p rest ih =>
    intro ordered popped prog
    obtain ⟨st, b⟩ := p
    cases b with
    | nil =>
      rw [pass_pop, pass_pop]
      rw [ih ordered popped prog, ih ordered [] false]
    | cons r b' =>
      rw [pass_pop, pass_pop]
      by_cases htop : topK ≤ ordered.length + 1
      · rw [if_pos htop, if_pos htop]
        simp
      · rw [if_neg htop, if_neg htop]
        rw [ih (ordered ++ [r]) (popped ++ [st]) true, ih (ordered ++ [r]) ([] ++ [st]) true]
        simp

/-- `pop_heads` ignores a popped key no bucket has. -/
theorem pop_heads_cons_notkey (B : List (SourceType × List SearchResult))
    (st : SourceType) (δ : List SourceType) (h : ∀ p ∈ B, ¬ p.1 = st) :
    pop_heads B (st :: δ) = pop_heads B δ := by
  rw [pop_heads, pop_heads]
  refine List.map_congr_left ?_
  intro p hp
  have hne : ¬ p.1 = st := h p hp
  by_cases hd : p.1 ∈ δ
  · rw [if_pos (List.mem_cons_of_mem st hd), if_pos hd]
  · rw [if_neg (by simp [hne, hd]), if_neg hd]

/-- Unfolding `pop_heads` over a cons. -/
theorem pop_heads_cons (p : SourceType × List SearchResult)
    (B : List (SourceType × List SearchResult)) (popped : List SourceType) :
    pop_heads (p :: B) popped
      = (if p.1 ∈ popped then (p.1, p.2.tail) else p) :: pop_heads B popped := by
  rw [pop_heads, pop_heads, List.map_cons]

/-- One pass conserves the multiset: what it moves into `ordered` is exactly
what `pop_heads` removes from the buckets. -/
theorem pass_pop_flatten (topK : Nat) :
    ∀ (S : List (SourceType × List SearchResult)) (ordered : List SearchResult),
      (S.map Prod.fst).Nodup →
      List.Perm
        ((pass_pop topK S ordered [] false).1
          ++ buckets_flat (pop_heads S (pass_pop topK S ordered [] false).2.1))
        (ordered ++ buckets_flat S) := by
  intro S
  induction S with
  | nil =>
    intro ordered _
    simp [pass_pop, pop_heads, buckets_flat]
  | cons p rest ih =>
    intro ordered hnd
    obtain ⟨st, b⟩ := p
    rw [List.map_cons, List.nodup_cons] at hnd
    have hst_notin : ∀ q ∈ rest, ¬ q.1 = st := by
      intro q hq hc
      apply hnd.1
      rw [← hc]
      exact List.mem_map.mpr ⟨q, hq, rfl⟩
    cases b with
    | nil =>
      rw [pass_pop]
      rw [pop_heads_cons]
      have hpair : (if (st, ([] : List SearchResult)).1
            ∈ (pass_pop topK rest ordered [] false).2.1
          then ((st, ([] : List SearchResult)).1, (st, ([] : List SearchResult)).2.tail)
          else (st, ([] : List SearchResult)))
          = (st, ([] : List SearchResult)) := by
        by_cases hmem : st ∈ (pass_pop topK rest ordered [] false).2.1
        · rw [if_pos (by simpa using hmem)]
          rfl
        · rw [if_neg (by simpa using hmem)]

      rw [hpair]
      have hflat : buckets_flat ((st, ([] : List SearchResult)) ::
            pop_heads rest (pass_pop topK rest ordered [] false).2.1)
          = buckets_flat (pop_heads rest (pass_pop topK rest ordered [] false).2.1) := by
        simp [buckets_flat]
      have hflatS : buckets_flat ((st, ([] : List SearchResult)) :: rest)
          = buckets_flat rest := by
        simp [buckets_flat]
      rw [hflat, hflatS]
      exact ih ordered hnd.2
    | cons r b' =>
      rw [pass_pop]
      by_cases htop : topK ≤ ordered.length + 1
      · rw [if_pos htop]
        have hpop : pop_heads ((st, r :: b') :: rest) (([] : List SourceType) ++ [st])
            = (st, b') :: rest := by
          rw [List.nil_append, pop_heads_cons, if_pos (by simp)]
          rw [pop_heads_cons_notkey rest st [] hst_notin,
            pop_heads_of_disjoint rest [] (fun p _ => by simp)]
          rfl
        rw [hpop]
        have hgoal : (ordered ++ [r]) ++ buckets_flat ((st, b') :: rest)
            = ordered ++ buckets_flat ((st, r :: b') :: rest) := by
          simp [buckets_flat]
        rw [hgoal]
      · rw [if_neg htop]
        have hfst := pass_pop_fst_acc topK rest (ordered ++ [r]) (([] : List SourceType) ++ [st]) true
        have hpopped := pass_pop_popped_acc topK rest (ordered ++ [r]) (([] : List SourceType) ++ [st]) true
        rw [hfst, hpopped]
        set R1 := (pass_pop topK rest (ordered ++ [r]) [] false).1 with hR1
        set d := (pass_pop topK rest (ordered ++ [r]) [] false).2.1 with hd
        have hpop : pop_heads ((st, r :: b') :: rest) ((([] : List SourceType) ++ [st]) ++ d)
            = (st, b') :: pop_heads rest d := by
          rw [List.nil_append]
          rw [show (([st] : List SourceType) ++ d) = st :: d from rfl]
          rw [pop_heads_cons, if_pos (by simp)]
          rw [pop_heads_cons_notkey rest st d hst_notin]
          rfl
        rw [hpop]
        have hIH := ih (ordered ++ [r]) hnd.2
        rw [← hR1, ← hd] at hIH
        have hflat2 : buckets_flat ((st, b') :: pop_heads rest d)
            = b' ++ buckets_flat (pop_heads rest d) := by simp [buckets_flat]
        have hflatS : buckets_flat ((st, r :: b') :: rest)
            = (r :: b') ++ buckets_flat rest := by simp [buckets_flat]
        rw [hflat2, hflatS]
        set F := buckets_flat (pop_heads rest d) with hF
        set FR := buckets_flat rest with hFR
        have step1 : List.Perm (R1 ++ (b' ++ F)) (R1 ++ (F ++ b')) :=
          (List.perm_append_comm).append_left R1
        have step2 : R1 ++ (F ++ b') = (R1 ++ F) ++ b' := by rw [List.append_assoc]
        have step3 : List.Perm ((R1 ++ F) ++ b') (((ordered ++ [r]) ++ FR) ++ b') :=
          hIH.append_right b'
        have step4 : ((ordered ++ [r]) ++ FR) ++ b' = (ordered ++ [r]) ++ (FR ++ b') := by
          rw [List.append_assoc]
        have step5 : List.Perm ((ordered ++ [r]) ++ (FR ++ b'))
            ((ordered ++ [r]) ++ (b' ++ FR)) :=
          (List.perm_append_comm).append_left (ordered ++ [r])
        have step6 : (ordered ++ [r]) ++ (b' ++ FR) = ordered ++ (r :: b' ++ FR) := by
          simp
        refine step1.trans ?_
        rw [step2]
        refine step3.trans ?_
        rw [step4]
        refine step5.trans ?_
        rw [step6]

/-- The snapshot sort permutes the buckets. -/
theorem snapshot_sort_perm (B : List (SourceType × List SearchResult)) :
    List.Perm (snapshot_sort B) B :=
  List.perm_insertionSort _ B

/-- The whole while-loop conserves the multiset: selected results plus what
remains in the buckets is a permutation of the initial state. -/
theorem diversity_loop_flatten (topK : Nat) :
    ∀ (fuel : Nat) (B : List (SourceType × List SearchResult))
      (ordered : List SearchResult), (B.map Prod.fst).Nodup →
      List.Perm ((diversity_loop topK fuel B ordered).1
        ++ buckets_flat (diversity_loop topK fuel B ordered).2)
        (ordered ++ buckets_flat B) := by
  intro fuel
  induction fuel with
  | zero =>
    intro B ordered _
    exact List.Perm.refl _
  | succ fuel ih =>
    intro B ordered hnd
    rw [diversity_loop]
    by_cases hlen : topK ≤ ordered.length
    · rw [if_pos hlen]
    · rw [if_neg hlen]
      dsimp only
      have hS : List.Perm (snapshot_sort B) B := snapshot_sort_perm B
      have hSnd : ((snapshot_sort B).map Prod.fst).Nodup :=
        ((hS.map Prod.fst).nodup_iff).mpr hnd
      have hpass := pass_pop_flatten topK (snapshot_sort B) ordered hSnd
      set res := pass_pop topK (snapshot_sort B) ordered [] false with hres
      have hflatS : List.Perm (buckets_flat (snapshot_sort B)) (buckets_flat B) :=
        perm_flatten (hS.map Prod.snd)
      have hflatpop : List.Perm (buckets_flat (pop_heads (snapshot_sort B) res.2.1))
          (buckets_flat (pop_heads B res.2.1)) := by
        refine perm_flatten ?_
        exact (hS.map (fun p => if p.1 ∈ res.2.1 then (p.1, p.2.tail) else p)).map Prod.snd
      have hmain : List.Perm (res.1 ++ buckets_flat (pop_heads B res.2.1))
          (ordered ++ buckets_flat B) := by
        refine List.Perm.trans (hflatpop.symm.append_left res.1) ?_
        refine List.Perm.trans hpass ?_
        exact hflatS.append_left ordered
      by_cases hprog : res.2.2 = true
      · rw [if_pos hprog]
        have hnd2 : ((pop_heads B res.2.1).map Prod.fst).Nodup := by
          rw [pop_heads_keys]
          exact hnd
        refine List.Perm.trans (ih (pop_heads B res.2.1) res.1 hnd2) hmain
      · rw [if_neg hprog]
        exact hmain

/-- Adding a result to a bucket either keeps the key list or appends a new
key. -/
theorem bucket_add_keys (B : List (SourceType × List SearchResult)) (r : SearchResult) :
    (bucket_add B r).map Prod.fst = B.map Prod.fst ∨
    ((bucket_add B r).map Prod.fst = B.map Prod.fst ++ [r.sourceType] ∧
      r.sourceType ∉ B.map Prod.fst) := by
  induction B with
  | nil =>
    right
    simp [bucket_add]
  | cons p rest ih =>
    obtain ⟨st, b⟩ := p
    rw [bucket_add]
    by_cases hst : st = r.sourceType
    · left
      rw [if_pos hst]
      simp
    · rw [if_neg hst]
      rcases ih with h | ⟨h, hnot⟩
      · left
        simp [h]
      · right
        constructor
        · simp [h]
        · simp only [List.map_cons, List.mem_cons]
          rintro (hc | hc)
          · exact hst hc.symm
          · exact hnot hc

/-- Bucketing produces pairwise-distinct keys. -/
theorem buckets_of_keys_nodup_aux (l : List SearchResult) :
    ∀ (B : List (SourceType × List SearchResult)), (B.map Prod.fst).Nodup →
      ((l.foldl bucket_add B).map Prod.fst).Nodup := by
  induction l with
  | nil => intro B h; simpa using h
  | cons r rest ih =>
    intro B h
    rw [List.foldl_cons]
    refine ih (bucket_add B r) ?_
    rcases bucket_add_keys B r with hk | ⟨hk, hnot⟩
    · rw [hk]; exact h
    · rw [hk]
      refine List.Nodup.append h (List.nodup_singleton _) ?_
      intro a ha hb
      rcases List.mem_singleton.mp hb with rfl
      exact hnot ha

/-- The buckets dict of `_limit_with_diversity` has pairwise-distinct keys,
also after the per-bucket sorts. -/
theorem sorted_buckets_keys_nodup (results : List SearchResult) :
    ((sort_buckets (buckets_of results)).map Prod.fst).Nodup := by
  have h1 : (sort_buckets (buckets_of results)).map Prod.fst
      = (buckets_of results).map Prod.fst := by
    rw [sort_buckets, List.map_map]
    rfl
  rw [h1]
  exact buckets_of_keys_nodup_aux results [] (by simp)

/-- The diversity limiter returns a sub-multiset of its input: every output
entry is one of the input entries, no entry repeated more often than it
occurs in the input. -/
theorem limit_with_diversity_subperm (results : List SearchResult) (topK : Nat) :
    List.Subperm (limit_with_diversity results topK) results := by
  rw [limit_with_diversity]
  by_cases hlen : results.length ≤ topK
  · rw [if_pos hlen]
  · rw [if_neg hlen]
    dsimp only
    set B := sort_buckets (buckets_of results) with hB
    set res := diversity_loop topK (topK + 1) B [] with hres
    have hflatB : List.Perm (buckets_flat B) results :=
      List.Perm.trans (sort_buckets_flatten (buckets_of results)) (buckets_of_flatten results)
    have hloop : List.Perm (res.1 ++ buckets_flat res.2) results := by
      have h := diversity_loop_flatten topK (topK + 1) B [] (sorted_buckets_keys_nodup results)
      rw [← hres] at h
      simpa using List.Perm.trans h hflatB
    by_cases hout : topK ≤ res.1.length
    · rw [if_pos hout]
      have h1 : List.Sublist (res.1.take topK) res.1 := List.take_sublist topK res.1
      have h2 : List.Sublist res.1 (res.1 ++ buckets_flat res.2) :=
        List.sublist_append_left res.1 (buckets_flat res.2)
      exact (List.Sublist.subperm (h1.trans h2)).trans (List.Perm.subperm hloop)
    · rw [if_neg hout]
      have hrem : List.Perm (List.insertionSort
          (fun x y : SearchResult => y.score ≤ x.score) (buckets_flat res.2))
          (buckets_flat res.2) := List.perm_insertionSort _ _
      have hperm : List.Perm (res.1 ++ List.insertionSort
          (fun x y : SearchResult => y.score ≤ x.score) (buckets_flat res.2))
          (res.1 ++ buckets_flat res.2) := hrem.append_left res.1
      have h1 : List.Sublist ((res.1 ++ List.insertionSort
          (fun x y : SearchResult => y.score ≤ x.score) (buckets_flat res.2)).take topK)
          (res.1 ++ List.insertionSort (fun x y : SearchResult => y.score ≤ x.score)
            (buckets_flat res.2)) := List.take_sublist _ _
      exact (List.Sublist.subperm h1).trans
        ((List.Perm.trans hperm hloop).subperm)

/-- After dedupe the value list carries pairwise-distinct URLs. -/
theorem deduped_urls_nodup (results : List SearchResult) :
    ((deduped_results results).map SearchResult.url).Nodup := by
  obtain ⟨h1, h2, _, _⟩ := dedupe_fold_inv results
  have hurls : (deduped_results results).map SearchResult.url
      = (dedupe_fold results).map Prod.fst := by
    rw [deduped_results, List.map_map]
    exact List.map_congr_left (fun p hp => h1 p hp)
  rw [hurls]
  exact h2

/-- Every deduped value is one of the inputs and bears the maximum score
among the inputs sharing its URL. -/
theorem deduped_mem_max (results : List SearchResult) (k : SearchResult)
    (hk : k ∈ deduped_results results) :
    k ∈ results ∧ ∀ s ∈ results, s.url = k.url → s.score ≤ k.score := by
  obtain ⟨pre, post, hdec, hpre, hpost⟩ := dedupe_kept_decomposition results k hk
  constructor
  · rw [hdec]
    exact List.mem_append.mpr (Or.inr (List.mem_cons_self _ _))
  · intro s hs hsu
    rw [hdec] at hs
    rcases List.mem_append.mp hs with hs | hs
    · exact le_of_lt (hpre s hs hsu)
    · rcases List.mem_cons.mp hs with rfl | hs
      · exact le_refl _
      · exact hpost s hs hsu

/-- C1: with dedupe enabled, `batch_search` returns each URL at most once,
and every returned result is one of the provider results, carrying the
maximum score among all provider results with its URL (so for a URL that
occurred more than once, the retained result's score is the maximum of the
duplicates' scores). -/
theorem batch_search_dedupes (results : List SearchResult) (topK : Nat) :
    ((batch_search true results topK).map SearchResult.url).Nodup ∧
    ∀ r ∈ batch_search true results topK,
      r ∈ results ∧ ∀ s ∈ results, s.url = r.url → s.score ≤ r.score := by
  have hsub : List.Subperm (batch_search true results topK) (deduped_results results) := by
    show List.Subperm (limit_with_diversity (deduped_results results) topK) _
    exact limit_with_diversity_subperm (deduped_results results) topK
  obtain ⟨l, hperm, hsubl⟩ := hsub
  constructor
  · have h1 : (l.map SearchResult.url).Nodup :=
      List.Nodup.sublist (hsubl.map SearchResult.url) (deduped_urls_nodup results)
    exact ((hperm.map SearchResult.url).nodup_iff).mp h1
  · intro r hr
    have hrd : r ∈ deduped_results results := by
      have hrl : r ∈ l := (hperm.mem_iff).mpr hr
      exact hsubl.subset hrl
    exact deduped_mem_max results r hrd

/-- Formalization of C2's CLAIMED selection rule, from the claim's words:
among the currently non-empty buckets, the one whose head score is maximal
(first such bucket on a tie). -/
def spec_max_entry (B : List (SourceType × List SearchResult)) :
    Option (SourceType × List SearchResult) :=
  match B.filter (fun p => !p.2.isEmpty) with
  | [] => none
  | q :: qs =>
    some (qs.foldl (fun best p => if head_key best < head_key p then p else best) q)

/-- Formalization of C2's CLAIMED loop: at EVERY step pop the head of the
bucket whose head score is maximal at that moment, until K results are
chosen or all buckets are empty (each step adds one result, so fuel K
suffices; the claimed top-off over the then-empty buckets adds nothing). -/
def spec_greedy_loop (topK : Nat) :
    Nat → List (SourceType × List SearchResult) → List SearchResult →
    List SearchResult
  | 0, _, ordered => ordered
  | fuel + 1, B, ordered =>
    if topK ≤ ordered.length then ordered
    else
      match spec_max_entry B with
      | none => ordered
      | some (st, bucket) =>
        match bucket with
        | [] => ordered
        | r :: _ => spec_greedy_loop topK fuel (pop_heads B [st]) (ordered ++ [r])

/-- C2's claimed algorithm end to end: bucket by source type, sort each
bucket descending, then the per-step greedy max-head selection. -/
def spec_diversity_select (results : List SearchResult) (topK : Nat) :
    List SearchResult :=
  if results.length ≤ topK then results
  else spec_greedy_loop topK topK (sort_buckets (buckets_of results)) []

/-- Highest-scoring arxiv result of the C2 counterexample. -/
def c2_a1 : SearchResult :=
  { url := "https://a1.example", title := "a1", snippet := "", score := 10,
    sourceType := SourceType.arxiv }

/-- Second arxiv result of the C2 counterexample. -/
def c2_a2 : SearchResult :=
  { url := "https://a2.example", title := "a2", snippet := "", score := 9,
    sourceType := SourceType.arxiv }

/-- Low-scoring github result of the C2 counterexample. -/
def c2_b1 : SearchResult :=
  { url := "https://b1.example", title := "b1", snippet := "", score := 1,
    sourceType := SourceType.github }

/-- C2 counterexample: with candidates {arxiv: 10, 9; github: 1} and K = 2,
the claimed per-step greedy rule would pick [10, 9] (after taking 10, the
maximal head is 9), but the code orders the buckets only once per pass and
pops one head from EACH non-empty bucket in that pass, returning [10, 1]. -/
theorem diversity_selection_counterexample :
    limit_with_diversity [c2_a1, c2_a2, c2_b1] 2 = [c2_a1, c2_b1] ∧
    spec_diversity_select [c2_a1, c2_a2, c2_b1] 2 = [c2_a1, c2_a2] ∧
    decide (c2_b1 = c2_a2) = false := by
  refine ⟨by decide, by decide, by decide⟩

/-- Reference for the AMENDED C2: the results one pass takes — the heads of
the non-empty buckets in snapshot order, at most as many as are still
needed. -/
def rr_pass_picks (k : Nat) (S : List (SourceType × List SearchResult)) :
    List SearchResult :=
  ((S.map Prod.snd).filterMap List.head?).take k

/-- Reference for the AMENDED C2: the keys of the first `n` non-empty
buckets in snapshot order — the buckets the pass popped. -/
def rr_pass_popped (n : Nat) (S : List (SourceType × List SearchResult)) :
    List SourceType :=
  ((S.filter (fun p => !p.2.isEmpty)).map Prod.fst).take n

/-- Reference implementation of the AMENDED C2 loop: repeated passes; each
pass snapshots the buckets in descending head-score order (stable, empty
buckets keyed 0), pops the head of each non-empty bucket in that order until
K results are chosen, and repeats until K results are chosen or a pass finds
every bucket empty. -/
def rr_loop (topK : Nat) :
    Nat → List (SourceType × List SearchResult) → List SearchResult →
    List SearchResult
  | 0, _, ordered => ordered
  | fuel + 1, B, ordered =>
    if topK ≤ ordered.length then ordered
    else
      let S := snapshot_sort B
      let picks := rr_pass_picks (topK - ordered.length) S
      if picks.isEmpty then ordered
      else rr_loop topK fuel (pop_heads B (rr_pass_popped picks.length S)) (ordered ++ picks)

/-- Reference implementation of the AMENDED C2 selection, end to end. -/
def rr_select (results : List SearchResult) (topK : Nat) : List SearchResult :=
  if results.length ≤ topK then results
  else (rr_loop topK (topK + 1) (sort_buckets (buckets_of results)) []).take topK

/-- The progressed flag of a pass only accumulates. -/
theorem pass_pop_prog_acc (topK : Nat) :
    ∀ (S : List (SourceType × List SearchResult)) (ordered : List SearchResult)
      (popped : List SourceType) (prog : Bool),
      (pass_pop topK S ordered popped prog).2.2
        = (prog || (pass_pop topK S ordered [] false).2.2) := by
  intro S
  induction S with
  | nil => intro ordered popped prog; simp [pass_pop]
  | cons p rest ih =>
    intro ordered popped prog
    obtain ⟨st, b⟩ := p
    cases b with
    | nil =>
      rw [pass_pop, pass_pop]
      rw [ih ordered popped prog, ih ordered [] false]
    | cons r b' =>
      rw [pass_pop, pass_pop]
      by_cases htop : topK ≤ ordered.length + 1
      · rw [if_pos htop, if_pos htop]
        simp
      · rw [if_neg htop, if_neg htop]
        rw [ih (ordered ++ [r]) (popped ++ [st]) true, ih (ordered ++ [r]) ([] ++ [st]) true]
        simp

/-- One code pass IS one reference pass: it appends the heads of the
non-empty buckets in snapshot order (truncated to what is still needed),
pops exactly the keys of the first that-many non-empty buckets, and reports
progress iff it picked anything. -/
theorem pass_pop_spec (topK : Nat) :
    ∀ (S : List (SourceType × List SearchResult)) (ordered : List SearchResult),
      ordered.length < topK →
      pass_pop topK S ordered [] false
        = (ordered ++ rr_pass_picks (topK - ordered.length) S,
           rr_pass_popped (rr_pass_picks (topK - ordered.length) S).length S,
           !(rr_pass_picks (topK - ordered.length) S).isEmpty) := by
  intro S
  induction S with
  | nil =>
    intro ordered _
    simp [pass_pop, rr_pass_picks, rr_pass_popped]
  | cons p rest ih =>
    intro ordered hlen
    obtain ⟨st, b⟩ := p
    cases b with
    | nil =>
      have hpicks : rr_pass_picks (topK - ordered.length)
            ((st, ([] : List SearchResult)) :: rest)
          = rr_pass_picks (topK - ordered.length) rest := by
        simp [rr_pass_picks]
      have hpopped : ∀ n, rr_pass_popped n ((st, ([] : List SearchResult)) :: rest)
          = rr_pass_popped n rest := by
        intro n
        simp [rr_pass_popped]
      rw [pass_pop, hpicks, hpopped]
      exact ih ordered hlen
    | cons r b' =>
      have hk : 1 ≤ topK - ordered.length := by omega
      have hheads : ((((st, r :: b') :: rest).map Prod.snd).filterMap List.head?)
          = r :: ((rest.map Prod.snd).filterMap List.head?) := by
        simp
      by_cases htop : topK ≤ ordered.length + 1
      · have hk1 : topK - ordered.length = 1 := by omega
        have hpicks : rr_pass_picks (topK - ordered.length) ((st, r :: b') :: rest)
            = [r] := by
          rw [rr_pass_picks, hheads, hk1]
          rfl
        rw [pass_pop, if_pos htop, hpicks]
        refine Prod.ext rfl (Prod.ext ?_ rfl)
        show ([] : List SourceType) ++ [st] = rr_pass_popped [r].length ((st, r :: b') :: rest)
        simp [rr_pass_popped]
      · have hk2 : topK - ordered.length = (topK - (ordered.length + 1)) + 1 := by omega
        have hlen2 : (ordered ++ [r]).length < topK := by
          simp only [List.length_append, List.length_cons, List.length_nil]
          omega
        have hpicks : rr_pass_picks (topK - ordered.length) ((st, r :: b') :: rest)
            = r :: rr_pass_picks (topK - (ordered ++ [r]).length) rest := by
          rw [rr_pass_picks, hheads, hk2, List.take_succ_cons, rr_pass_picks]
          simp
        rw [pass_pop, if_neg htop]
        have hacc : pass_pop topK rest (ordered ++ [r]) (([] : List SourceType) ++ [st]) true
            = ((pass_pop topK rest (ordered ++ [r]) [] false).1,
               (([] : List SourceType) ++ [st])
                 ++ (pass_pop topK rest (ordered ++ [r]) [] false).2.1,
               (true || (pass_pop topK rest (ordered ++ [r]) [] false).2.2)) := by
          refine Prod.ext ?_ (Prod.ext ?_ ?_)
          · exact pass_pop_fst_acc topK rest (ordered ++ [r]) (([] : List SourceType) ++ [st]) true
          · exact pass_pop_popped_acc topK rest (ordered ++ [r]) (([] : List SourceType) ++ [st]) true
          · exact pass_pop_prog_acc topK rest (ordered ++ [r]) (([] : List SourceType) ++ [st]) true
        rw [hacc, ih (ordered ++ [r]) hlen2, hpicks]
        refine Prod.ext ?_ (Prod.ext ?_ ?_)
        · show (ordered ++ [r]) ++ rr_pass_picks (topK - (ordered ++ [r]).length) rest
              = ordered ++ r :: rr_pass_picks (topK - (ordered ++ [r]).length) rest
          simp
        · show (([] : List SourceType) ++ [st]) ++ rr_pass_popped
              (rr_pass_picks (topK - (ordered ++ [r]).length) rest).length rest
            = rr_pass_popped
              (r :: rr_pass_picks (topK - (ordered ++ [r]).length) rest).length
              ((st, r :: b') :: rest)
          simp only [List.nil_append, List.length_cons, rr_pass_popped]
          rw [List.filter_cons_of_pos (by simp), List.map_cons, List.take_succ_cons]
          rfl
        · show (true || (rr_pass_picks (topK - (ordered ++ [r]).length) rest).isEmpty.not.not)
              = _
          simp

/-- The code loop stops immediately once `top_k` results are selected. -/
theorem diversity_loop_stop (topK fuel : Nat) (B : List (SourceType × List SearchResult))
    (ordered : List SearchResult) (h : topK ≤ ordered.length) :
    diversity_loop topK fuel B ordered = (ordered, B) := by
  cases fuel with
  | zero => rfl
  | succ f => rw [diversity_loop, if_pos h]

/-- The reference loop stops immediately once `top_k` results are selected. -/
theorem rr_loop_stop (topK fuel : Nat) (B : List (SourceType × List SearchResult))
    (ordered : List SearchResult) (h : topK ≤ ordered.length) :
    rr_loop topK fuel B ordered = ordered := by
  cases fuel with
  | zero => rfl
  | succ f => rw [rr_loop, if_pos h]

/-- The code's while-loop computes exactly the reference loop's selection. -/
theorem diversity_loop_eq_rr (topK : Nat) :
    ∀ (fuel : Nat) (B : List (SourceType × List SearchResult))
      (ordered : List SearchResult), ordered.length < topK →
      (diversity_loop topK fuel B ordered).1 = rr_loop topK fuel B ordered := by
  intro fuel
  induction fuel with
  | zero => intro B ordered _; rfl
  | succ fuel ih =>
    intro B ordered hlen
    rw [diversity_loop, rr_loop, if_neg (not_le.mpr hlen), if_neg (not_le.mpr hlen)]
    dsimp only
    rw [pass_pop_spec topK (snapshot_sort B) ordered hlen]
    set picks := rr_pass_picks (topK - ordered.length) (snapshot_sort B) with hpicks
    by_cases hp : picks.isEmpty
    · rw [if_pos hp]
      have hnil : picks = [] := List.isEmpty_iff.mp hp
      rw [hp]
      simp [hnil]
    · have hpf : picks.isEmpty = false := by simpa using hp
      rw [if_neg hp, hpf]
      simp only [Bool.not_false, if_true]
      by_cases hlt : (ordered ++ picks).length < topK
      · exact ih _ _ hlt
      · rw [diversity_loop_stop topK fuel _ _ (not_lt.mp hlt)]
        rw [rr_loop_stop topK fuel _ _ (not_lt.mp hlt)]

/-- A list of lists whose every member is empty flattens to the empty list. -/
theorem flatten_nil_of_all {α : Type} :
    ∀ (l : List (List α)), (∀ x ∈ l, x = []) → l.flatten = []
  | [], _ => rfl
  | x :: xs, h => by
    rw [List.flatten_cons, h x (List.mem_cons_self x xs), List.nil_append]
    exact flatten_nil_of_all xs (fun y hy => h y (List.mem_cons_of_mem _ hy))

/-- If a pass with a positive quota picks nothing, every bucket is empty. -/
theorem rr_picks_empty_flat (B : List (SourceType × List SearchResult))
    (k : Nat) (hk : 0 < k)
    (h : rr_pass_picks k (snapshot_sort B) = []) :
    buckets_flat B = [] := by
  have hH : ((snapshot_sort B).map Prod.snd).filterMap List.head? = [] := by
    rcases hHl : ((snapshot_sort B).map Prod.snd).filterMap List.head? with _ | ⟨x, xs⟩
    · rfl
    · exfalso
      rw [rr_pass_picks, hHl] at h
      cases k with
      | zero => omega
      | succ n => simp [List.take_succ_cons] at h
  have hall : ∀ p ∈ snapshot_sort B, p.2 = [] := by
    intro p hp
    rcases hb : p.2 with _ | ⟨r, rs⟩
    · rfl
    · exfalso
      have hmem : (r : SearchResult)
          ∈ ((snapshot_sort B).map Prod.snd).filterMap List.head? := by
        refine List.mem_filterMap.mpr ⟨p.2, List.mem_map_of_mem _ hp, ?_⟩
        rw [hb]; rfl
      rw [hH] at hmem
      exact List.not_mem_nil _ hmem
  have hsnap : buckets_flat (snapshot_sort B) = [] := by
    rw [buckets_flat]
    refine flatten_nil_of_all _ ?_
    intro x hx
    rcases List.mem_map.mp hx with ⟨p, hp, hpx⟩
    rw [← hpx]
    exact hall p hp
  have hperm : List.Perm (buckets_flat (snapshot_sort B)) (buckets_flat B) :=
    perm_flatten ((snapshot_sort_perm B).map Prod.snd)
  rw [hsnap] at hperm
  exact (List.Perm.nil_eq hperm).symm

/-- With enough fuel the loop either reaches `top_k` or exhausts the
buckets: when it stops short of `top_k`, every remaining bucket is empty. -/
theorem diversity_loop_result (topK : Nat) :
    ∀ (fuel : Nat) (B : List (SourceType × List SearchResult))
      (ordered : List SearchResult),
      ordered.length < topK → topK ≤ ordered.length + fuel →
      topK ≤ (diversity_loop topK fuel B ordered).1.length ∨
        buckets_flat (diversity_loop topK fuel B ordered).2 = [] := by
  intro fuel
  induction fuel with
  | zero => intro B ordered hlen hfuel; omega
  | succ fuel ih =>
    intro B ordered hlen hfuel
    rw [diversity_loop, if_neg (not_le.mpr hlen)]
    dsimp only
    rw [pass_pop_spec topK (snapshot_sort B) ordered hlen]
    set picks := rr_pass_picks (topK - ordered.length) (snapshot_sort B) with hpicks
    by_cases hp : picks.isEmpty
    · have hnil : picks = [] := List.isEmpty_iff.mp hp
      rw [hp]
      simp only [Bool.not_true, if_false]
      right
      have hpop : rr_pass_popped picks.length (snapshot_sort B) = [] := by
        rw [hnil]
        rfl
      rw [hpop]
      have hid : pop_heads B [] = B := by
        simp [pop_heads]
      rw [hid]
      exact rr_picks_empty_flat B (topK - ordered.length) (by omega)
        (by rw [← hpicks]; exact hnil)
    · have hpf : picks.isEmpty = false := by simpa using hp
      rw [hpf]
      simp only [Bool.not_false, if_true]
      by_cases hlt : (ordered ++ picks).length < topK
      · refine ih _ _ hlt ?_
        have hlp : 1 ≤ picks.length := by
          cases hq : picks with
          | nil => rw [hq] at hpf; simp at hpf
          | cons _ _ => simp [hq]
        simp only [List.length_append] at hlt ⊢
        omega
      · rw [diversity_loop_stop topK fuel _ _ (not_lt.mp hlt)]
        exact Or.inl (not_lt.mp hlt)

/-- C2 (amended): `_limit_with_diversity` performs a per-pass round-robin:
whenever there are more candidates than `top_k`, each pass visits the
buckets in descending head-score order fixed at the start of the pass
(stable, with empty buckets keyed 0) and pops the head of each non-empty
bucket, until `top_k` results are chosen or a pass makes no progress; the
final top-off with the remaining highest-scoring results adds nothing,
because the loop only stops short of `top_k` with every bucket empty.  The
whole selection equals the round-robin reference `rr_select`. -/
theorem limit_with_diversity_round_robin (results : List SearchResult) (topK : Nat) :
    limit_with_diversity results topK = rr_select results topK := by
  rw [limit_with_diversity, rr_select]
  by_cases hlen : results.length ≤ topK
  · rw [if_pos hlen, if_pos hlen]
  · rw [if_neg hlen, if_neg hlen]
    dsimp only
    by_cases h0 : topK = 0
    · subst h0
      rw [diversity_loop_stop 0 (0 + 1) _ [] (by simp),
        rr_loop_stop 0 (0 + 1) _ [] (by simp)]
      rw [if_pos (by simp)]
    · have hpos : ([] : List SearchResult).length < topK := by
        simpa using Nat.pos_of_ne_zero h0
      have heq := diversity_loop_eq_rr topK (topK + 1)
        (sort_buckets (buckets_of results)) [] hpos
      by_cases hge : topK
          ≤ (diversity_loop topK (topK + 1) (sort_buckets (buckets_of results)) []).1.length
      · rw [if_pos hge, heq]
      · rw [if_neg hge]
        rcases diversity_loop_result topK (topK + 1)
            (sort_buckets (buckets_of results)) [] hpos (by simp) with hge' | hnil
        · exact absurd hge' hge
        · rw [hnil]
          rw [show List.insertionSort (fun x y : SearchResult => y.score ≤ x.score) []
              = [] from rfl]
          rw [List.append_nil, heq]
